import Mathlib

/-!
# Schema store and schema-aware composition check of crossplane-lint

A shallow embedding of

* `internal/xpkg/lint/schema/store.go` (the schema store and the metadata
  augmentation applied at read time),
* `internal/xpkg/lint/linter/rules/composition_schemaAware.go` (the
  composition check), and
* `internal/xpkg/lint/interface.go` (issues and the linter context).

Conventions.

* A Go pointer that may be nil is an `Option`; a Go map that may be nil is an
  `Option` of a lookup function (`GoMap`), so that two maps are equal exactly
  when they hold the same value at every key, as in Go, where the iteration
  order of a map is not observable.
* A run-time panic (nil dereference, write to a nil map) is an
  `Except.error` carrying a `Panic`.
* Go's `error` results are `Option String` / `Except String`, the string
  being the text of `Error()`.
* Values are trees, so `DeepCopy` is the identity on them. Where sharing
  matters (what the read methods hand out, and what is written through it),
  the pointers to validation objects are addresses into a `Memory`, and
  `DeepCopy` makes new objects; the two views agree on what the methods
  return (`Process.readCRDSchema_eq`, `Process.readCRDSchemaValidation_eq`,
  `Process.registerCRD_eq`).
-/

namespace CrossplaneLint

/-! ## Go maps -/

/-- A non-nil Go map with string keys: the value stored at each key, if any. -/
abbrev GoMap (ν : Type) := String → Option ν

/-- The map literal with no entries. -/
def GoMap.empty {ν : Type} : GoMap ν := fun _ => none

/-- The assignment of one key in a non-nil map. -/
def GoMap.set {ν : Type} (m : GoMap ν) (k : String) (v : ν) : GoMap ν :=
  fun k' => if k' = k then some v else m k'

/-- The run-time faults of the embedded code. -/
inductive Panic where
  | nilDereference
  | nilMapWrite
  deriving DecidableEq, Repr

/-! ## The schema types of `k8s.io/apiextensions-apiserver` (the fields the code reads or writes) -/

mutual
/-- The type `apiextensions.JSONSchemaProps`: description, type, required list,
properties and additional properties. The library type has further
attributes; the code never names them, and they travel with the value like
`Description` and `Required` do. -/
inductive JSONSchemaProps where
  | mk (Description : String) (Type_ : String) (Required : List String)
      (Properties : Option (String → Option JSONSchemaProps))
      (AdditionalProperties : Option JSONSchemaPropsOrBool)
/-- The type `apiextensions.JSONSchemaPropsOrBool`. -/
inductive JSONSchemaPropsOrBool where
  | mk (Allows : Bool) (Schema : Option JSONSchemaProps)
end

namespace JSONSchemaProps

def Description : JSONSchemaProps → String
  | mk d _ _ _ _ => d

def Type_ : JSONSchemaProps → String
  | mk _ t _ _ _ => t

def Required : JSONSchemaProps → List String
  | mk _ _ r _ _ => r

def Properties : JSONSchemaProps → Option (GoMap JSONSchemaProps)
  | mk _ _ _ p _ => p

def AdditionalProperties : JSONSchemaProps → Option JSONSchemaPropsOrBool
  | mk _ _ _ _ a => a

/-- The Go zero value `JSONSchemaProps{}`, which reading an absent map key yields. -/
def zero : JSONSchemaProps := mk "" "" [] none none

/-- The value `p` after the assignment `p.Properties = m`. -/
def setProperties : JSONSchemaProps → Option (GoMap JSONSchemaProps) → JSONSchemaProps
  | mk d t r _ a, m => mk d t r m a

end JSONSchemaProps

/-- The type `apiextensions.CustomResourceValidation`. -/
structure CustomResourceValidation where
  OpenAPIV3Schema : Option JSONSchemaProps

/-- Go's `m[k]` on a possibly nil map: the value and the `exists` flag. A nil
map reads like an empty one. -/
def mapIndex (m : Option (GoMap JSONSchemaProps)) (k : String) : JSONSchemaProps × Bool :=
  match m with
  | none => (JSONSchemaProps.zero, false)
  | some f =>
    match f k with
    | none => (JSONSchemaProps.zero, false)
    | some v => (v, true)

/-- Go's `m[k] = v` on a possibly nil map: writing to a nil map panics. -/
def mapAssign (m : Option (GoMap JSONSchemaProps)) (k : String) (v : JSONSchemaProps) :
    Except Panic (Option (GoMap JSONSchemaProps)) :=
  match m with
  | none => .error Panic.nilMapWrite
  | some f => .ok (some (GoMap.set f k v))

/-! ## `addMetaDataToSchema` (store.go, lines 83-131) -/

/-- Lines 93-98 and 102-107: an open map of strings. -/
def stringMapSchema : JSONSchemaProps :=
  JSONSchemaProps.mk "" "object" [] none
    (some (JSONSchemaPropsOrBool.mk true (some (JSONSchemaProps.mk "" "string" [] none none))))

/-- Lines 84-112: the literal `additionalMetaProps`, in the order it is written. -/
def additionalMetaProps : List (String × JSONSchemaProps) :=
  [ ("name", JSONSchemaProps.mk "" "string" [] none none),
    ("namespace", JSONSchemaProps.mk "" "string" [] none none),
    ("labels", stringMapSchema),
    ("annotations", stringMapSchema),
    ("uid", JSONSchemaProps.mk "" "string" [] none none) ]

/-- Lines 113-118 on the root schema: create `metadata` when it is not a key. -/
def ensureMetadata (root : JSONSchemaProps) : Except Panic JSONSchemaProps :=
  if (mapIndex root.Properties "metadata").2 then .ok root
  else do
    let props ← mapAssign root.Properties "metadata"
      (JSONSchemaProps.mk "" "object" [] (some GoMap.empty) none)
    pure (root.setProperties props)

/-- Lines 119-123 on the root schema: give `metadata` a properties map when it has none. -/
def ensureMetadataProperties (root : JSONSchemaProps) : Except Panic JSONSchemaProps :=
  if ((mapIndex root.Properties "metadata").1.Properties).isNone then do
    let prop := (mapIndex root.Properties "metadata").1
    let prop := prop.setProperties (some GoMap.empty)
    let props ← mapAssign root.Properties "metadata" prop
    pure (root.setProperties props)
  else .ok root

/-- Lines 125-129 on the root schema: one turn of the loop over `additionalMetaProps`. -/
def addMetaProp (root : JSONSchemaProps) (entry : String × JSONSchemaProps) :
    Except Panic JSONSchemaProps :=
  if (mapIndex (mapIndex root.Properties "metadata").1.Properties entry.1).2 then .ok root
  else do
    let props := (mapIndex root.Properties "metadata").1
    let inner ← mapAssign props.Properties entry.1 entry.2
    let props := props.setProperties inner
    let outer ← mapAssign root.Properties "metadata" props
    pure (root.setProperties outer)

/-- Lines 124-130: the loop, over the entries in the given order. -/
def addMetaProps (root : JSONSchemaProps) : List (String × JSONSchemaProps) →
    Except Panic JSONSchemaProps
  | [] => .ok root
  | entry :: rest =>
    match addMetaProp root entry with
    | .error e => .error e
    | .ok root' => addMetaProps root' rest

/-- The body of `addMetaDataToSchema` on the root schema, the loop taking the
entries of `additionalMetaProps` in the order `entries`. -/
def addMetaDataToRoot (entries : List (String × JSONSchemaProps)) (root : JSONSchemaProps) :
    Except Panic JSONSchemaProps :=
  match ensureMetadata root with
  | .error e => .error e
  | .ok r1 =>
    match ensureMetadataProperties r1 with
    | .error e => .error e
    | .ok r2 => addMetaProps r2 entries

/-- The function `addMetaDataToSchema(crdv)`: the value `*crdv` holds when the
call returns, or the panic that ends it. Dereferencing a nil `crdv`, or a nil
`crdv.OpenAPIV3Schema`, panics. -/
def addMetaDataToSchema (crdv : Option CustomResourceValidation) :
    Except Panic CustomResourceValidation :=
  match crdv with
  | none => .error Panic.nilDereference
  | some v =>
    match v.OpenAPIV3Schema with
    | none => .error Panic.nilDereference
    | some root =>
      match addMetaDataToRoot additionalMetaProps root with
      | .error e => .error e
      | .ok root' => .ok { OpenAPIV3Schema := some root' }

/-! ## Identities and definitions (`k8s.io/apimachinery`, `k8s.io/apiextensions-apiserver`) -/

/-- The type `schema.GroupKind`. -/
structure GroupKind where
  Group : String
  Kind : String
  deriving DecidableEq, Repr

/-- The type `schema.GroupVersion`. -/
structure GroupVersion where
  Group : String
  Version : String
  deriving DecidableEq, Repr

/-- The type `schema.GroupVersionKind`. -/
structure GroupVersionKind where
  Group : String
  Version : String
  Kind : String
  deriving DecidableEq, Repr

/-- The method `gvk.GroupKind()`. -/
def GroupVersionKind.GroupKind (gvk : GroupVersionKind) : GroupKind :=
  { Group := gvk.Group, Kind := gvk.Kind }

/-- The method `gv.WithKind(kind)`. -/
def GroupVersion.WithKind (gv : GroupVersion) (kind : String) : GroupVersionKind :=
  { Group := gv.Group, Version := gv.Version, Kind := kind }

/-- The method `gvk.String()`. -/
def GroupVersionKind.text (gvk : GroupVersionKind) : String :=
  gvk.Group ++ "/" ++ gvk.Version ++ ", Kind=" ++ gvk.Kind

/-- The type `CustomResourceDefinitionNames`, of which the code reads `Kind`. -/
structure CustomResourceDefinitionNames where
  Kind : String
  deriving DecidableEq, Repr

/-- The type `apiextensions.CustomResourceDefinitionVersion`: the version label and its schema. -/
structure CustomResourceDefinitionVersion where
  Name : String
  Schema : Option CustomResourceValidation

/-- The type `apiextensions.CustomResourceDefinitionSpec`. -/
structure CustomResourceDefinitionSpec where
  Group : String
  Names : CustomResourceDefinitionNames
  Validation : Option CustomResourceValidation
  Versions : List CustomResourceDefinitionVersion

/-- The type `apiextensions.CustomResourceDefinition`, the entry the store holds. -/
structure CustomResourceDefinition where
  Spec : CustomResourceDefinitionSpec

/-- The generated `DeepCopy`: on tree values, the same value. -/
def CustomResourceDefinition.DeepCopy (crd : CustomResourceDefinition) :
    CustomResourceDefinition := crd

/-- The type `extv1.CustomResourceDefinitionSpec`: the versioned form has no
unversioned validation. Its schemas are written with the same schema type. -/
structure V1CustomResourceDefinitionSpec where
  Group : String
  Names : CustomResourceDefinitionNames
  Versions : List CustomResourceDefinitionVersion

/-- The type `extv1.CustomResourceDefinition`. -/
structure V1CustomResourceDefinition where
  Spec : V1CustomResourceDefinitionSpec

/-- The type `CompositeResourceDefinitionSpec` of an XRD: group, names, the
optional claim names and the versions with their schemas. -/
structure CompositeResourceDefinitionSpec where
  Group : String
  Names : CustomResourceDefinitionNames
  ClaimNames : Option CustomResourceDefinitionNames
  Versions : List CustomResourceDefinitionVersion

/-- The type `CompositeResourceDefinition` (XRD). -/
structure CompositeResourceDefinition where
  Spec : CompositeResourceDefinitionSpec

/-- The type `TypeReference` of a composition's `spec.compositeTypeRef`. -/
structure TypeReference where
  APIVersion : String
  Kind : String
  deriving DecidableEq, Repr

/-- The type `Composition`: the composite type reference the check reads, and
the rest of the document, which only the external validator reads. -/
structure Composition where
  CompositeTypeRef : TypeReference
  Document : String
  deriving DecidableEq, Repr

/-- Modelled from the spec: the type `xpkg.PackageEntry`, an artifact entry
"inspectable as is this a CRD / is this an XRD / is this a Composition, each
convertible to its typed form, fallible per-entry": what each of its methods
returns. -/
structure PackageEntry where
  IsCRD : Bool
  AsCRD : Except String V1CustomResourceDefinition
  IsXRD : Bool
  AsXRD : Except String CompositeResourceDefinition
  IsComposition : Bool
  AsComposition : Except String Composition

/-- Modelled from the spec: the type `xpkg.Package`, "an ordered collection of
artifact entries". -/
structure Package where
  Entries : List PackageEntry

/-- The function `errors.Wrap(err, message)`, by the text of the error it returns. -/
def Wrap (err : String) (message : String) : String :=
  message ++ ": " ++ err

/-! ## The schema store (store.go) -/

def errBuildCompositeCRD : String := "failed to build composite CRD"

def errBuildClaimCRD : String := "failed to build claim CRD"

/-- The type `SchemaStore`: the map `crds` (the lock `mu` orders concurrent
accesses and holds no data). -/
structure SchemaStore where
  crds : Finmap (fun _ : GroupKind => CustomResourceDefinition)

/-- The functions the store calls that are defined outside `store.go`: the
conversion of the Kubernetes library and the two derivations of the `schema`
package. -/
structure Deps where
  Convert : V1CustomResourceDefinition → Except String CustomResourceDefinition
  ForCompositeResource : CompositeResourceDefinition → Except String V1CustomResourceDefinition
  ForCompositeResourceClaim : CompositeResourceDefinition → Except String V1CustomResourceDefinition

/-- The function `NewSchemaStore`. -/
def NewSchemaStore : SchemaStore :=
  { crds := ∅ }

namespace SchemaStore

/-- The method `registerCRD` (lines 66-81): the store when the call returns,
and the error returned. -/
def registerCRD (d : Deps) (s : SchemaStore) (crd : V1CustomResourceDefinition) :
    SchemaStore × Option String :=
  let gk : GroupKind := { Group := crd.Spec.Group, Kind := crd.Spec.Names.Kind }
  match d.Convert crd with
  | .error err => (s, some err)
  | .ok extCRD => ({ crds := s.crds.insert gk extCRD }, none)

/-- The body of the loop of `RegisterPackage` (lines 31-61) for one entry. -/
def registerEntry (d : Deps) (s : SchemaStore) (e : PackageEntry) : SchemaStore × Option String :=
  if e.IsCRD then
    match e.AsCRD with
    | .error err => (s, some err)
    | .ok crd => registerCRD d s crd
  else if e.IsXRD then
    match e.AsXRD with
    | .error err => (s, some err)
    | .ok xrd =>
      match d.ForCompositeResource xrd with
      | .error err => (s, some (Wrap err errBuildCompositeCRD))
      | .ok comp =>
        match registerCRD d s comp with
        | (s1, some err) => (s1, some err)
        | (s1, none) =>
          if xrd.Spec.ClaimNames.isSome then
            match d.ForCompositeResourceClaim xrd with
            | .error err => (s1, some (Wrap err errBuildClaimCRD))
            | .ok claim => registerCRD d s1 claim
          else (s1, none)
  else (s, none)

/-- The loop of `RegisterPackage` (lines 30-63): the first error ends it. -/
def registerEntries (d : Deps) (s : SchemaStore) : List PackageEntry → SchemaStore × Option String
  | [] => (s, none)
  | e :: rest =>
    match registerEntry d s e with
    | (s1, some err) => (s1, some err)
    | (s1, none) => registerEntries d s1 rest

/-- The method `RegisterPackage` (lines 29-64): the store when the call
returns, and the error returned. -/
def RegisterPackage (d : Deps) (s : SchemaStore) (pkg : Package) : SchemaStore × Option String :=
  registerEntries d s pkg.Entries

/-- The method `GetCRDSchema` (lines 152-160). -/
def GetCRDSchema (s : SchemaStore) (gk : GroupKind) : Option CustomResourceDefinition :=
  match s.crds.lookup gk with
  | none => none
  | some crd => some crd.DeepCopy

/-- The loop of `GetCRDSchemaValidation` (lines 142-149) over the versions left to visit. -/
def scanVersions (version : String) :
    List CustomResourceDefinitionVersion → Except Panic (Option CustomResourceValidation)
  | [] => .ok none
  | v :: rest =>
    if v.Name = version then
      match addMetaDataToSchema v.Schema with
      | .error e => .error e
      | .ok schema => .ok (some schema)
    else scanVersions version rest

/-- The method `GetCRDSchemaValidation` (lines 133-150): the schema returned
(`none` for nil), or the panic that ends the call. -/
def GetCRDSchemaValidation (s : SchemaStore) (gvk : GroupVersionKind) :
    Except Panic (Option CustomResourceValidation) :=
  match s.GetCRDSchema gvk.GroupKind with
  | none => .ok none
  | some crd =>
    match crd.Spec.Validation with
    | some validation =>
      match addMetaDataToSchema (some validation) with
      | .error e => .error e
      | .ok schema => .ok (some schema)
    | none => scanVersions gvk.Version crd.Spec.Versions

/-- The method `GetAll` (lines 162-170): a map with a deep copy of every entry. -/
def GetAll (s : SchemaStore) : Finmap (fun _ : GroupKind => CustomResourceDefinition) :=
  s.crds

end SchemaStore

/-! ## The derivations as the specification describes them -/

/-- Modelled from the spec: whether an XRD has a "usable version schema", the
condition under which the derivations of the `schema` package (in a source
file other than the three embedded here) succeed: some version carries a
schema. -/
def hasUsableVersionSchema (xrd : CompositeResourceDefinition) : Bool :=
  xrd.Spec.Versions.any (fun v => v.Schema.isSome)

/-- Modelled from the spec: the function `ForCompositeResource` of the `schema`
package, defined outside the three source files embedded here. It "computes
the composite type's group/version/kind from the definition's declared group
and per-version schema; builds a Schema Entry whose schema is the XRD's own
schema tree", and "fails with a SchemaDerivationError if the XRD has no usable
version schema". -/
def ForCompositeResource (xrd : CompositeResourceDefinition) :
    Except String V1CustomResourceDefinition :=
  if hasUsableVersionSchema xrd then
    .ok { Spec := { Group := xrd.Spec.Group, Names := xrd.Spec.Names,
                    Versions := xrd.Spec.Versions } }
  else .error "SchemaDerivationError"

/-- Modelled from the spec: the function `ForCompositeResourceClaim` of the
`schema` package, defined outside the three source files embedded here. It
"repeats the process using the claim kind, producing a second Schema Entry
referencing the same underlying schema tree (claims and composites share
structural shape by design, only the kind differs)". -/
def ForCompositeResourceClaim (xrd : CompositeResourceDefinition) :
    Except String V1CustomResourceDefinition :=
  match xrd.Spec.ClaimNames with
  | none => .error "SchemaDerivationError"
  | some claimNames =>
    if hasUsableVersionSchema xrd then
      .ok { Spec := { Group := xrd.Spec.Group, Names := claimNames,
                      Versions := xrd.Spec.Versions } }
    else .error "SchemaDerivationError"

/-- The conversion of the Kubernetes library,
`Convert_v1_CustomResourceDefinition_To_apiextensions_CustomResourceDefinition`:
it copies group and names, and converts the versions, which can fail and can
move a schema shared by all versions to the unversioned `Validation`. How the
versions are converted is the parameter `versions`. -/
def convertWith
    (versions : List CustomResourceDefinitionVersion →
      Except String (Option CustomResourceValidation × List CustomResourceDefinitionVersion))
    (crd : V1CustomResourceDefinition) : Except String CustomResourceDefinition :=
  match versions crd.Spec.Versions with
  | .error err => .error err
  | .ok (validation, vs) =>
    .ok { Spec := { Group := crd.Spec.Group, Names := crd.Spec.Names,
                    Validation := validation, Versions := vs } }

/-- A conversion of versions that keeps every version with its schema. -/
def keepVersions (vs : List CustomResourceDefinitionVersion) :
    Except String (Option CustomResourceValidation × List CustomResourceDefinitionVersion) :=
  .ok (none, vs)

/-- A conversion of versions that moves the schema of a lone version to the
unversioned validation, as the library does when all versions share one schema. -/
def hoistSingleVersion (vs : List CustomResourceDefinitionVersion) :
    Except String (Option CustomResourceValidation × List CustomResourceDefinitionVersion) :=
  match vs with
  | [v] => .ok (v.Schema, [{ Name := v.Name, Schema := none }])
  | _ => .ok (none, vs)

/-- The store's dependencies with the derivations as the specification
describes them, and the library conversion over a conversion of versions. -/
def specDeps
    (versions : List CustomResourceDefinitionVersion →
      Except String (Option CustomResourceValidation × List CustomResourceDefinitionVersion)) :
    Deps :=
  { Convert := convertWith versions,
    ForCompositeResource := ForCompositeResource,
    ForCompositeResourceClaim := ForCompositeResourceClaim }

/-- The package entry that holds an XRD. -/
def xrdEntry (xrd : CompositeResourceDefinition) : PackageEntry :=
  { IsCRD := false, AsCRD := .error "not a CustomResourceDefinition",
    IsXRD := true, AsXRD := .ok xrd,
    IsComposition := false, AsComposition := .error "not a Composition" }

/-- The package entry that holds a composition. -/
def compositionEntry (comp : Composition) : PackageEntry :=
  { IsCRD := false, AsCRD := .error "not a CustomResourceDefinition",
    IsXRD := false, AsXRD := .error "not a CompositeResourceDefinition",
    IsComposition := true, AsComposition := .ok comp }

/-! ## Issues and the linter context (interface.go) -/

/-- The type `fieldpath.Segment` of crossplane-runtime: a field name or an index. -/
inductive Segment where
  | field (name : String)
  | index (i : Nat)
  deriving DecidableEq, Repr

/-- One argument of the variadic constructor `jsonpath.NewJSONPath`: the code
passes it strings (line 76) and a whole `fieldpath.Segments` value (line 115). -/
inductive PathArg where
  | text (s : String)
  | segments (l : List Segment)
  deriving DecidableEq, Repr

/-- Modelled from the spec: the type `jsonpath.JSONPath`, "an opaque value type
with a constructor from a sequence of segments": the sequence it was
constructed from. The composite literal `jsonpath.JSONPath{}` is the empty
sequence. -/
abbrev JSONPath := List PathArg

/-- Modelled from the spec: the constructor `jsonpath.NewJSONPath(args...)`. -/
def NewJSONPath (args : List PathArg) : JSONPath := args

/-- The type `Issue` (interface.go, lines 21-27); `Entry` is a pointer. -/
structure Issue where
  RuleName : String
  Entry : Option PackageEntry
  Path : JSONPath
  PathValue : String
  Description : String

/-- The reading methods of the interface `LinterContext` (interface.go, lines
29-34); `ReportIssue` is recorded as a call, see `Call`. -/
structure LinterContext where
  GetCRDSchemaValidation : GroupVersionKind → Except Panic (Option CustomResourceValidation)
  GetCRDSchema : GroupKind → Option CustomResourceDefinition
  GetAll : Finmap (fun _ : GroupKind => CustomResourceDefinition)

/-- The linter context whose reading methods are those of a schema store. -/
def SchemaStore.LinterContext (s : SchemaStore) : LinterContext :=
  { GetCRDSchemaValidation := s.GetCRDSchemaValidation,
    GetCRDSchema := s.GetCRDSchema,
    GetAll := s.GetAll }

/-! ## The composition check (composition_schemaAware.go) -/

/-- The type `field.Error` of apimachinery: the field path and the body of the message. -/
structure FieldError where
  Field : String
  ErrorBody : String
  deriving DecidableEq, Repr

/-- The method `(*field.Error).Error()`. -/
def FieldError.Error (e : FieldError) : String :=
  e.Field ++ ": " ++ e.ErrorBody

/-- The method `gk.String()` of `schema.GroupKind`. -/
def GroupKind.text (gk : GroupKind) : String :=
  if gk.Group.length = 0 then gk.Kind else gk.Kind ++ "." ++ gk.Group

/-- The function `schema.ParseGroupVersion` of apimachinery. -/
def ParseGroupVersion (gv : String) : Except String GroupVersion :=
  if gv.length = 0 ∨ gv = "/" then .ok { Group := "", Version := "" }
  else
    match gv.data.count '/' with
    | 0 => .ok { Group := "", Version := gv }
    | 1 => .ok { Group := String.mk (gv.data.takeWhile (fun c => c != '/')),
                 Version := String.mk ((gv.data.dropWhile (fun c => c != '/')).drop 1) }
    | _ => .error ("unexpected GroupVersion string: " ++ gv)

/-- The type `crdGetter` (lines 33-35). -/
structure crdGetter where
  LinterContext : LinterContext

/-- The method `crdGetter.Get` (lines 37-43): the definition, or the error. -/
def crdGetter.Get (c : crdGetter) (gk : GroupKind) : Except String CustomResourceDefinition :=
  match c.LinterContext.GetCRDSchema gk with
  | none => .error ("CRD " ++ gk.text ++ " not found")
  | some crd => .ok crd

/-- The method `crdGetter.GetAll` (lines 45-47): the map; the error is always nil. -/
def crdGetter.GetAll (c : crdGetter) : Finmap (fun _ : GroupKind => CustomResourceDefinition) :=
  c.LinterContext.GetAll

/-- The validator of crossplane's `composition` package, by what `Validate`
returns for a composition: the warnings and the field errors (pointers). -/
structure Validator where
  Validate : Composition → List String × List (Option FieldError)

/-- What the rule uses that is defined outside `composition_schemaAware.go`:
the message constants of the `rules` package, formatting with one argument,
the validator's constructor and the parser of field paths of
crossplane-runtime. -/
structure RuleDeps where
  errConvertTo : String
  errParseGroupVersion : String
  errNoCRDForGVK : String
  Sprintf : String → String → String
  NewValidator : crdGetter → Except String Validator
  Parse : String → List Segment × Option String

/-- The calls the check makes on its context and on its collaborators, in order. -/
inductive Call where
  | ReportIssue (issue : Issue)
  | NewValidator (getter : crdGetter)
  | Validate (comp : Composition)
  | Println (warn : String)

/-- The function `toJSONPath` (lines 110-116). -/
def toJSONPath (d : RuleDeps) (e : Option FieldError) : JSONPath :=
  match e with
  | none => []
  | some err =>
    if err.Field = "" then []
    else NewJSONPath [PathArg.segments (d.Parse err.Field).1]

/-- Lines 97-104: one issue per field error, in order; `err.Error()` on a nil
pointer panics before the issue is reported. -/
def reportFieldErrors (d : RuleDeps) (manifest : PackageEntry) :
    List (Option FieldError) → List Call × Option Panic
  | [] => ([], none)
  | err :: rest =>
    match err with
    | none => ([], some Panic.nilDereference)
    | some e =>
      let issue : Issue :=
        { RuleName := "CompositionSchemaAwareValidation",
          Path := toJSONPath d err,
          Entry := some manifest,
          PathValue := "",
          Description := e.Error }
      let (calls, fault) := reportFieldErrors d manifest rest
      (Call.ReportIssue issue :: calls, fault)

/-- The function `checkCompositionWithSchemas` (lines 51-107): the calls it
makes, in order, and the panic that ends it, if any. -/
def checkCompositionWithSchemas (d : RuleDeps) (ctx : LinterContext) (manifest : PackageEntry) :
    List Call × Option Panic :=
  if !manifest.IsComposition then ([], none)
  else
    match manifest.AsComposition with
    | .error err =>
      ([Call.ReportIssue
        { RuleName := "", Entry := some manifest, Path := [], PathValue := "",
          Description := Wrap err (d.Sprintf d.errConvertTo "Composition") }], none)
    | .ok comp =>
      match ParseGroupVersion comp.CompositeTypeRef.APIVersion with
      | .error err =>
        ([Call.ReportIssue
          { RuleName := "", Entry := some manifest, Path := [], PathValue := "",
            Description := Wrap err d.errParseGroupVersion }], none)
      | .ok compositeGv =>
        let compositeGvk := compositeGv.WithKind comp.CompositeTypeRef.Kind
        match ctx.GetCRDSchema compositeGvk.GroupKind with
        | none =>
          ([Call.ReportIssue
            { RuleName := "", Entry := some manifest,
              Path := NewJSONPath [PathArg.text "spec", PathArg.text "compositeTypeRef"],
              PathValue := "",
              Description := d.Sprintf d.errNoCRDForGVK compositeGvk.text }], none)
        | some _ =>
          match d.NewValidator { LinterContext := ctx } with
          | .error err =>
            ([Call.NewValidator { LinterContext := ctx },
              Call.ReportIssue
                { RuleName := "", Entry := some manifest, Path := [], PathValue := "",
                  Description := Wrap err "creating schema aware validator" }], none)
          | .ok v =>
            let (warns, errs) := v.Validate comp
            let (calls, fault) := reportFieldErrors d manifest errs
            (Call.NewValidator { LinterContext := ctx } :: Call.Validate comp ::
              (warns.map Call.Println ++ calls), fault)

/-- The issues among the calls made, in order. -/
def reportedIssues : List Call → List Issue
  | [] => []
  | Call.ReportIssue issue :: rest => issue :: reportedIssues rest
  | _ :: rest => reportedIssues rest

/-! ## A client of the store's read operations -/

/-- A value a read operation handed to its caller. -/
inductive ReadResult where
  | entry (crd : Option CustomResourceDefinition)
  | schema (v : Except Panic (Option CustomResourceValidation))
  | all (m : Finmap (fun _ : GroupKind => CustomResourceDefinition))

/-- What a client does, one step at a time: call a read operation of the
store, or change a value it was handed earlier (the `i`-th) as it pleases. -/
inductive ClientStep where
  | GetCRDSchema (gk : GroupKind)
  | GetCRDSchemaValidation (gvk : GroupVersionKind)
  | GetAll
  | mutate (i : Nat) (f : ReadResult → ReadResult)

/-- The store, and the values the client holds, in the order it was handed them. -/
structure ClientState where
  store : SchemaStore
  held : List ReadResult

/-- One step of the client, with values as trees. The read operations take the
read lock and have no assignment to `crds`. Whether a value handed out shares
an object with the store cannot be told on trees; for that, see the section on
the store and its clients in one memory. -/
def ClientStep.run (st : ClientState) : ClientStep → ClientState
  | .GetCRDSchema gk =>
    { store := st.store, held := st.held ++ [ReadResult.entry (st.store.GetCRDSchema gk)] }
  | .GetCRDSchemaValidation gvk =>
    { store := st.store,
      held := st.held ++ [ReadResult.schema (st.store.GetCRDSchemaValidation gvk)] }
  | .GetAll =>
    { store := st.store, held := st.held ++ [ReadResult.all st.store.GetAll] }
  | .mutate i f =>
    { store := st.store, held := st.held.modify f i }

/-! ## Sample values -/

/-- A validation schema that declares `spec` and no `metadata`. -/
def widgetSchema : CustomResourceValidation :=
  { OpenAPIV3Schema := some (JSONSchemaProps.mk "" "object" ["spec"]
      (some (GoMap.empty.set "spec" (JSONSchemaProps.mk "" "object" [] none none))) none) }

/-- The schema `widgetSchema` with the augmented `metadata`. -/
def widgetAugmented : CustomResourceValidation :=
  { OpenAPIV3Schema := some (JSONSchemaProps.mk "" "object" ["spec"]
      (some ((GoMap.empty.set "spec" (JSONSchemaProps.mk "" "object" [] none none)).set "metadata"
        (JSONSchemaProps.mk "" "object" []
          (some (((((GoMap.empty.set "name" (JSONSchemaProps.mk "" "string" [] none none)).set
            "namespace" (JSONSchemaProps.mk "" "string" [] none none)).set
            "labels" stringMapSchema).set "annotations" stringMapSchema).set
            "uid" (JSONSchemaProps.mk "" "string" [] none none))) none))) none) }

/-- A validation schema whose `metadata` declares `name` as an integer, and a
field `owner` of its own. -/
def typedNameSchema : CustomResourceValidation :=
  { OpenAPIV3Schema := some (JSONSchemaProps.mk "" "object" []
      (some (GoMap.empty.set "metadata"
        (JSONSchemaProps.mk "envelope" "object" ["name"]
          (some ((GoMap.empty.set "name" (JSONSchemaProps.mk "" "integer" [] none none)).set
            "owner" (JSONSchemaProps.mk "the owner" "string" [] none none))) none))) none) }

/-- A definition of `Widget` in group `example.org` with the one version `v1`. -/
def widgetV1 : V1CustomResourceDefinition :=
  { Spec := { Group := "example.org", Names := { Kind := "Widget" },
              Versions := [{ Name := "v1", Schema := some widgetSchema }] } }

/-- The store after registering `widgetV1`, its lone schema moved to the
unversioned validation by the conversion. -/
def widgetStore : SchemaStore :=
  (SchemaStore.registerCRD (specDeps hoistSingleVersion) NewSchemaStore widgetV1).1

/-- The entry of `widgetStore`. -/
def widgetEntry : CustomResourceDefinition :=
  { Spec := { Group := "example.org", Names := { Kind := "Widget" },
              Validation := some widgetSchema,
              Versions := [{ Name := "v1", Schema := none }] } }

/-- A second definition of `Widget` in group `example.org`, with another schema. -/
def widgetV1Typed : V1CustomResourceDefinition :=
  { Spec := { Group := "example.org", Names := { Kind := "Widget" },
              Versions := [{ Name := "v1", Schema := some typedNameSchema }] } }

/-- The entry `widgetV1Typed` converts to when versions are kept. -/
def widgetTypedEntry : CustomResourceDefinition :=
  { Spec := { Group := "example.org", Names := { Kind := "Widget" },
              Validation := none,
              Versions := [{ Name := "v1", Schema := some typedNameSchema }] } }

/-- The entry `widgetV1` converts to when versions are kept. -/
def widgetKeptEntry : CustomResourceDefinition :=
  { Spec := { Group := "example.org", Names := { Kind := "Widget" },
              Validation := none,
              Versions := [{ Name := "v1", Schema := some widgetSchema }] } }

/-- An XRD of group `example.org` with composite kind `Widget` and claim kind
`WidgetClaim`, whose one version `v1` carries `widgetSchema`. -/
def widgetXRD : CompositeResourceDefinition :=
  { Spec := { Group := "example.org", Names := { Kind := "Widget" },
              ClaimNames := some { Kind := "WidgetClaim" },
              Versions := [{ Name := "v1", Schema := some widgetSchema }] } }

/-- The XRD `widgetXRD` without claim names. -/
def widgetXRDNoClaim : CompositeResourceDefinition :=
  { Spec := { Group := "example.org", Names := { Kind := "Widget" },
              ClaimNames := none,
              Versions := [{ Name := "v1", Schema := some widgetSchema }] } }

/-- The entry derived from `widgetXRD` for the claim kind, versions kept. -/
def widgetClaimEntry : CustomResourceDefinition :=
  { Spec := { Group := "example.org", Names := { Kind := "WidgetClaim" },
              Validation := none,
              Versions := [{ Name := "v1", Schema := some widgetSchema }] } }

/-- Dependencies whose claim derivation rejects the XRD it is given, the
composite derivation and the conversion being those of `specDeps keepVersions`. -/
def claimRejectingDeps : Deps :=
  { Convert := convertWith keepVersions,
    ForCompositeResource := ForCompositeResource,
    ForCompositeResourceClaim := fun _ => .error "invalid claim names" }

/-- An XRD of `Widget` whose one version carries no schema. -/
def schemalessXRD : CompositeResourceDefinition :=
  { Spec := { Group := "example.org", Names := { Kind := "Widget" },
              ClaimNames := none,
              Versions := [{ Name := "v1", Schema := none }] } }

/-- A composition whose composite type reference is `Gadget` of `example.org/v1`. -/
def gadgetComposition : Composition :=
  { CompositeTypeRef := { APIVersion := "example.org/v1", Kind := "Gadget" },
    Document := "resources: []" }

/-- The names between the dots of a field path, `acc` holding the characters
of the name being read, last first. -/
def splitFieldPath (acc : List Char) : List Char → List String
  | [] => [String.mk acc.reverse]
  | c :: cs =>
    if c = '.' then String.mk acc.reverse :: splitFieldPath [] cs
    else splitFieldPath (c :: acc) cs

/-- Sample dependencies of the rule: messages, a formatting that appends the
argument to the message, a validator that finds nothing, and a parser that
splits a field path at its dots. -/
def sampleRuleDeps : RuleDeps :=
  { errConvertTo := "cannot convert to",
    errParseGroupVersion := "cannot parse group version",
    errNoCRDForGVK := "no CRD found for",
    Sprintf := fun format arg => format ++ " " ++ arg,
    NewValidator := fun _ => .ok { Validate := fun _ => ([], []) },
    Parse := fun path => ((splitFieldPath [] path.data).map Segment.field, none) }

/-! ## Observations on the calls of the check, and further sample values -/

/-- The compositions `Validate` was called with among the calls made, in order. -/
def validateCalls : List Call → List Composition
  | [] => []
  | Call.Validate comp :: rest => comp :: validateCalls rest
  | _ :: rest => validateCalls rest

/-- The loop of `GetAll` (lines 165-168), ranging over the entries of `crds` in
the order `entries` (Go leaves the order of a `range` over a map open): the
map `out` when the loop ends. -/
def copyEntries (out : Finmap (fun _ : GroupKind => CustomResourceDefinition)) :
    List (Sigma (fun _ : GroupKind => CustomResourceDefinition)) →
      Finmap (fun _ : GroupKind => CustomResourceDefinition)
  | [] => out
  | e :: rest => copyEntries (out.insert e.1 e.2.DeepCopy) rest

/-- A composition whose composite type reference is `Widget` of `example.org/v1`. -/
def widgetComposition : Composition :=
  { CompositeTypeRef := { APIVersion := "example.org/v1", Kind := "Widget" },
    Document := "resources: []" }

/-- A composition whose `apiVersion` has one slash too many. -/
def malformedComposition : Composition :=
  { CompositeTypeRef := { APIVersion := "example.org/v1/beta", Kind := "Widget" },
    Document := "resources: []" }

/-- A package entry of composition shape that does not parse. -/
def unparsableEntry : PackageEntry :=
  { IsCRD := false, AsCRD := .error "not a CustomResourceDefinition",
    IsXRD := false, AsXRD := .error "not a CompositeResourceDefinition",
    IsComposition := true, AsComposition := .error "yaml: line 3: mapping values" }

/-- A field error at `spec.size`. -/
def sizeError : FieldError :=
  { Field := "spec.size", ErrorBody := "Invalid value: \"big\": must be an integer" }

/-- A field error that carries no field path. -/
def pathlessError : FieldError :=
  { Field := "", ErrorBody := "Internal error: no resources" }

/-- Sample dependencies of the rule whose validator returns a warning and the
two field errors `sizeError` and `pathlessError`, in this order. -/
def findingRuleDeps : RuleDeps :=
  { errConvertTo := "cannot convert to",
    errParseGroupVersion := "cannot parse group version",
    errNoCRDForGVK := "no CRD found for",
    Sprintf := fun format arg => format ++ " " ++ arg,
    NewValidator := fun _ =>
      .ok { Validate := fun _ => (["spec.mode is deprecated"], [some sizeError, some pathlessError]) },
    Parse := fun path => ((splitFieldPath [] path.data).map Segment.field, none) }

/-- Sample dependencies of the rule whose validator cannot be constructed. -/
def failingValidatorDeps : RuleDeps :=
  { errConvertTo := "cannot convert to",
    errParseGroupVersion := "cannot parse group version",
    errNoCRDForGVK := "no CRD found for",
    Sprintf := fun format arg => format ++ " " ++ arg,
    NewValidator := fun _ => .error "no CRD getter",
    Parse := fun path => ((splitFieldPath [] path.data).map Segment.field, none) }

/-- The package entry that holds a CRD. -/
def crdEntry (crd : V1CustomResourceDefinition) : PackageEntry :=
  { IsCRD := true, AsCRD := .ok crd,
    IsXRD := false, AsXRD := .error "not a CompositeResourceDefinition",
    IsComposition := false, AsComposition := .error "not a Composition" }

/-- The validation schema `type: object`, with no properties declared. -/
def openSchema : CustomResourceValidation :=
  { OpenAPIV3Schema := some (JSONSchemaProps.mk "" "object" [] none none) }

/-- A definition of `Open` whose version `v1` has the schema `openSchema`. -/
def openV1 : V1CustomResourceDefinition :=
  { Spec := { Group := "example.org", Names := { Kind := "Open" },
              Versions := [{ Name := "v1", Schema := some openSchema }] } }

/-- A definition of `Rootless` whose version `v1` has a validation without root schema. -/
def rootlessV1 : V1CustomResourceDefinition :=
  { Spec := { Group := "example.org", Names := { Kind := "Rootless" },
              Versions := [{ Name := "v1", Schema := some { OpenAPIV3Schema := none } }] } }

/-- A definition of `Bare` whose version `v1` carries no schema. -/
def bareV1 : V1CustomResourceDefinition :=
  { Spec := { Group := "example.org", Names := { Kind := "Bare" },
              Versions := [{ Name := "v1", Schema := none }] } }

/-- The package of the three definitions `openV1`, `rootlessV1` and `bareV1`. -/
def faultyPackage : Package :=
  { Entries := [crdEntry openV1, crdEntry rootlessV1, crdEntry bareV1] }

/-- Dependencies whose conversion fails. -/
def failingConvertDeps : Deps :=
  { Convert := convertWith (fun _ => .error "cannot convert default"),
    ForCompositeResource := ForCompositeResource,
    ForCompositeResourceClaim := ForCompositeResourceClaim }

/-- A definition of `Gadget` in group `example.org`. -/
def gadgetV1 : V1CustomResourceDefinition :=
  { Spec := { Group := "example.org", Names := { Kind := "Gadget" },
              Versions := [{ Name := "v1", Schema := some typedNameSchema }] } }

/-- The schema `typedNameSchema` after augmentation: `metadata` is assigned
anew under its key, with its own fields kept and the four missing ones added. -/
def typedNameAugmented : CustomResourceValidation :=
  { OpenAPIV3Schema := some (JSONSchemaProps.mk "" "object" []
      (some ((GoMap.empty.set "metadata"
        (JSONSchemaProps.mk "envelope" "object" ["name"]
          (some ((GoMap.empty.set "name" (JSONSchemaProps.mk "" "integer" [] none none)).set
            "owner" (JSONSchemaProps.mk "the owner" "string" [] none none))) none)).set "metadata"
        (JSONSchemaProps.mk "envelope" "object" ["name"]
          (some ((((((GoMap.empty.set "name" (JSONSchemaProps.mk "" "integer" [] none none)).set
            "owner" (JSONSchemaProps.mk "the owner" "string" [] none none)).set
            "namespace" (JSONSchemaProps.mk "" "string" [] none none)).set
            "labels" stringMapSchema).set "annotations" stringMapSchema).set
            "uid" (JSONSchemaProps.mk "" "string" [] none none))) none))) none) }

/-- The store `registerCRD` leaves of `Open`, the conversion moving the lone
schema to the unversioned validation. -/
def openStore : SchemaStore :=
  (SchemaStore.registerCRD (specDeps hoistSingleVersion) NewSchemaStore openV1).1

/-- The store `registerCRD` leaves of `Open`, the conversion keeping the
schema with its version. -/
def openVersionsStore : SchemaStore :=
  (SchemaStore.registerCRD (specDeps keepVersions) NewSchemaStore openV1).1

/-! ## The store and its clients in one memory

The definitions above take values as trees. Here the pointers
`*CustomResourceValidation` of a stored definition are addresses into a memory
that the store shares with the callers of its read methods, so that a value
handed out either shares its validation objects with the store or does not. -/

/-- The address of a `CustomResourceValidation` object: a non-nil pointer
`*apiextensions.CustomResourceValidation`. -/
abbrev Addr := Nat

/-- The memory: the validation object at each address, with all it owns (root
schema, property maps: the generated `DeepCopy` copies them with the object,
and nothing in the embedded code makes two objects share them), and the
address the next new object gets. -/
structure Memory where
  cells : Addr → CustomResourceValidation
  next : Addr

namespace Memory

/-- A new object holding `v`: its address, and the memory with it. -/
def new (m : Memory) (v : CustomResourceValidation) : Addr × Memory :=
  (m.next, { cells := fun a => if a = m.next then v else m.cells a, next := m.next + 1 })

/-- The memory after the object at `a` was changed to `v`. -/
def set (m : Memory) (a : Addr) (v : CustomResourceValidation) : Memory :=
  { cells := fun b => if b = a then v else m.cells b, next := m.next }

/-- The object a pointer leads to; nothing for nil. -/
def load (m : Memory) (p : Option Addr) : Option CustomResourceValidation :=
  match p with
  | none => none
  | some a => some (m.cells a)

/-- A pointer to a new object holding a copy of `v`; nil for nil. -/
def place (m : Memory) (v : Option CustomResourceValidation) : Option Addr × Memory :=
  match v with
  | none => (none, m)
  | some x => (some (m.new x).1, (m.new x).2)

end Memory

/-- The struct `apiextensions.CustomResourceDefinitionVersion`, its field
`Schema` a pointer. -/
structure VersionRef where
  Name : String
  Schema : Option Addr

/-- The struct `apiextensions.CustomResourceDefinition`, the fields
`Spec.Validation` and `Spec.Versions[i].Schema` pointers. -/
structure DefinitionRef where
  Group : String
  Names : CustomResourceDefinitionNames
  Validation : Option Addr
  Versions : List VersionRef

/-- The version as a tree, its pointer followed in `m`. -/
def VersionRef.value (m : Memory) (v : VersionRef) : CustomResourceDefinitionVersion :=
  { Name := v.Name, Schema := m.load v.Schema }

/-- The definition as a tree, its pointers followed in `m`. -/
def DefinitionRef.value (m : Memory) (c : DefinitionRef) : CustomResourceDefinition :=
  { Spec := { Group := c.Group, Names := c.Names, Validation := m.load c.Validation,
              Versions := c.Versions.map (VersionRef.value m) } }

/-- The addresses a definition points to. -/
def DefinitionRef.addrs (c : DefinitionRef) : List Addr :=
  c.Validation.toList ++ c.Versions.filterMap (fun v => v.Schema)

/-- New objects for the schemas of a list of versions. -/
def Memory.placeVersions (m : Memory) :
    List CustomResourceDefinitionVersion → List VersionRef × Memory
  | [] => ([], m)
  | v :: rest =>
    ({ Name := v.Name, Schema := (m.place v.Schema).1 } ::
        ((m.place v.Schema).2.placeVersions rest).1,
      ((m.place v.Schema).2.placeVersions rest).2)

/-- New objects for all a definition points to, and the struct that points to them. -/
def Memory.placeDefinition (m : Memory) (e : CustomResourceDefinition) : DefinitionRef × Memory :=
  ({ Group := e.Spec.Group, Names := e.Spec.Names,
     Validation := (m.place e.Spec.Validation).1,
     Versions := ((m.place e.Spec.Validation).2.placeVersions e.Spec.Versions).1 },
    ((m.place e.Spec.Validation).2.placeVersions e.Spec.Versions).2)

/-- The generated `DeepCopy` of a definition: a struct whose pointers lead to
new objects that hold copies of what the pointers of `c` lead to. -/
def DefinitionRef.DeepCopy (c : DefinitionRef) (m : Memory) : DefinitionRef × Memory :=
  m.placeDefinition (c.value m)

/-- The function `addMetaDataToSchema(crdv)` on a pointer: the memory when the
call returns, in which the object `crdv` points to is the augmented one. -/
def addMetaDataToSchemaAt (m : Memory) (crdv : Option Addr) : Except Panic Memory :=
  match crdv with
  | none => .error Panic.nilDereference
  | some a =>
    match addMetaDataToSchema (some (m.cells a)) with
    | .error e => .error e
    | .ok r => .ok (m.set a r)

/-- The loop of `GetCRDSchemaValidation` (lines 142-149) on pointers: the
pointer returned, or the panic, and the memory then. -/
def scanVersionsAt (version : String) (m : Memory) :
    List VersionRef → Except Panic (Option Addr) × Memory
  | [] => (.ok none, m)
  | v :: rest =>
    if v.Name = version then
      match addMetaDataToSchemaAt m v.Schema with
      | .error e => (.error e, m)
      | .ok m' => (.ok v.Schema, m')
    else scanVersionsAt version m rest

/-- The lines 138-149 of `GetCRDSchemaValidation` on the definition `crd` that
`GetCRDSchema` returned. -/
def validationOf (version : String) (m : Memory) (crd : DefinitionRef) :
    Except Panic (Option Addr) × Memory :=
  match crd.Validation with
  | some a =>
    match addMetaDataToSchemaAt m (some a) with
    | .error e => (.error e, m)
    | .ok m' => (.ok (some a), m')
  | none => scanVersionsAt version m crd.Versions

/-- What the loop of `GetAll` has built: the map `out`, the addresses the
values put into `out` point to, and the memory. -/
structure Copies where
  out : Finmap (fun _ : GroupKind => DefinitionRef)
  reach : List Addr
  memory : Memory

/-- The map `crds` of the store, the memory, and the addresses of the objects
reachable from the values the read methods handed to their callers. -/
structure Process where
  crds : Finmap (fun _ : GroupKind => DefinitionRef)
  memory : Memory
  held : List Addr

/-- A new store in an empty memory, no value handed out yet. -/
def NewProcess : Process :=
  { crds := ∅, memory := { cells := fun _ => { OpenAPIV3Schema := none }, next := 0 },
    held := [] }

namespace Process

/-- The method `registerCRD` (lines 66-81) with pointers: `extCRD` is a new
struct, which the conversion fills; the objects it then points to are taken to
be new ones, so that no value a read method handed out earlier leads to them.
The struct is stored under the group and kind of `crd`. -/
def registerCRD (d : Deps) (st : Process) (crd : V1CustomResourceDefinition) :
    Process × Option String :=
  match d.Convert crd with
  | .error err => (st, some err)
  | .ok extCRD =>
    ({ crds := st.crds.insert { Group := crd.Spec.Group, Kind := crd.Spec.Names.Kind }
         (st.memory.placeDefinition extCRD).1,
       memory := (st.memory.placeDefinition extCRD).2,
       held := st.held }, none)

/-- Registering definitions one after the other. -/
def registerAll (d : Deps) (st : Process) (crds : List V1CustomResourceDefinition) : Process :=
  crds.foldl (fun st crd => (registerCRD d st crd).1) st

/-- The method `GetCRDSchema` (lines 152-160) with pointers: `crd` is a copy
of the stored struct, which shares its pointers, and the result is
`crd.DeepCopy()`. -/
def GetCRDSchema (st : Process) (gk : GroupKind) : Option DefinitionRef × Memory :=
  match st.crds.lookup gk with
  | none => (none, st.memory)
  | some crd => (some (crd.DeepCopy st.memory).1, (crd.DeepCopy st.memory).2)

/-- The method `GetCRDSchemaValidation` (lines 133-150) with pointers. -/
def GetCRDSchemaValidation (st : Process) (gvk : GroupVersionKind) :
    Except Panic (Option Addr) × Memory :=
  match (st.GetCRDSchema gvk.GroupKind).1 with
  | none => (.ok none, (st.GetCRDSchema gvk.GroupKind).2)
  | some crd => validationOf gvk.Version (st.GetCRDSchema gvk.GroupKind).2 crd

/-- The loop of `GetAll` (lines 165-168) with pointers, over the keys in the
order `order` (Go leaves the order of a `range` over a map open); a key
without entry is passed over. -/
def copyAll (st : Process) (acc : Copies) : List GroupKind → Copies
  | [] => acc
  | gk :: rest =>
    match st.crds.lookup gk with
    | none => copyAll st acc rest
    | some v =>
      copyAll st
        { out := acc.out.insert gk (v.DeepCopy acc.memory).1,
          reach := acc.reach ++ (v.DeepCopy acc.memory).1.addrs,
          memory := (v.DeepCopy acc.memory).2 } rest

/-- The method `GetAll` (lines 162-170) with pointers, the loop ranging over
the keys in the order `order`. -/
def GetAll (st : Process) (order : List GroupKind) : Copies :=
  copyAll st { out := ∅, reach := [], memory := st.memory } order

/-- What `GetCRDSchema` returns, as a tree. -/
def readCRDSchema (st : Process) (gk : GroupKind) : Option CustomResourceDefinition :=
  match (st.GetCRDSchema gk).1 with
  | none => none
  | some c => some (c.value (st.GetCRDSchema gk).2)

/-- What `GetCRDSchemaValidation` returns, as a tree. -/
def readCRDSchemaValidation (st : Process) (gvk : GroupVersionKind) :
    Except Panic (Option CustomResourceValidation) :=
  match (st.GetCRDSchemaValidation gvk).1 with
  | .error e => .error e
  | .ok p => .ok ((st.GetCRDSchemaValidation gvk).2.load p)

/-- The stored definition of a group and kind, as a tree. -/
def entry (st : Process) (gk : GroupKind) : Option CustomResourceDefinition :=
  match st.crds.lookup gk with
  | none => none
  | some c => some (c.value st.memory)

end Process

/-- What a caller of the read methods does, one step at a time: it calls one
of them, or it changes an object through a pointer. (The structs and the map
the methods return are the caller's own, `crd` being a copy of the map's
struct value and `out` a new map; changing their fields changes no object of
the memory.) -/
inductive MemoryStep where
  | GetCRDSchema (gk : GroupKind)
  | GetCRDSchemaValidation (gvk : GroupVersionKind)
  | GetAll (order : List GroupKind)
  | write (a : Addr) (v : CustomResourceValidation)

/-- The addresses a returned definition points to; none for nil. -/
def reachOf (c : Option DefinitionRef) : List Addr :=
  match c with
  | none => []
  | some crd => crd.addrs

/-- The address a returned validation pointer holds; none for nil, and none
when the call ended in a panic. -/
def reachOfValidation (r : Except Panic (Option Addr)) : List Addr :=
  match r with
  | .ok (some a) => [a]
  | _ => []

/-- One step of a caller. A read method leaves the memory it left, and the
objects its result points to are from then on within the caller's reach; a
write goes through only at an address within the caller's reach. -/
def Process.step (st : Process) : MemoryStep → Process
  | .GetCRDSchema gk =>
    { crds := st.crds, memory := (st.GetCRDSchema gk).2,
      held := st.held ++ reachOf (st.GetCRDSchema gk).1 }
  | .GetCRDSchemaValidation gvk =>
    { crds := st.crds, memory := (st.GetCRDSchemaValidation gvk).2,
      held := st.held ++ reachOfValidation (st.GetCRDSchemaValidation gvk).1 }
  | .GetAll order =>
    { crds := st.crds, memory := (st.GetAll order).memory,
      held := st.held ++ (st.GetAll order).reach }
  | .write a v =>
    if a ∈ st.held then { crds := st.crds, memory := st.memory.set a v, held := st.held }
    else st

/-- A sequence of steps of a caller. -/
def Process.run (st : Process) (steps : List MemoryStep) : Process :=
  steps.foldl Process.step st

/-- For comparison, `GetCRDSchemaValidation` as it would be if `GetCRDSchema`
returned the copy `crd` of the stored struct without calling `DeepCopy`: the
pointers are the store's own. -/
def Process.GetCRDSchemaValidationShared (st : Process) (gvk : GroupVersionKind) :
    Except Panic (Option Addr) × Memory :=
  match st.crds.lookup gvk.GroupKind with
  | none => (.ok none, st.memory)
  | some crd => validationOf gvk.Version st.memory crd

/-- For comparison, the step of a caller that calls
`GetCRDSchemaValidationShared`. -/
def Process.stepShared (st : Process) (gvk : GroupVersionKind) : Process :=
  { crds := st.crds, memory := (st.GetCRDSchemaValidationShared gvk).2,
    held := st.held ++ reachOfValidation (st.GetCRDSchemaValidationShared gvk).1 }

/-- The objects the store points to are made and out of the callers' reach,
and the objects within the callers' reach are made. -/
structure Process.Sound (st : Process) : Prop where
  stored : ∀ gk c, st.crds.lookup gk = some c →
    ∀ a ∈ c.addrs, a < st.memory.next ∧ a ∉ st.held
  handed : ∀ a ∈ st.held, a < st.memory.next

/-- From `st` to `st'` the map is the same, no object is unmade, the objects
out of the callers' reach are as they were, and what came within the callers'
reach was made in between. -/
structure Process.Keeps (st st' : Process) : Prop where
  crds : st'.crds = st.crds
  next : st.memory.next ≤ st'.memory.next
  cells : ∀ a, a < st.memory.next → a ∉ st.held → st'.memory.cells a = st.memory.cells a
  held : ∀ a ∈ st'.held, a ∈ st.held ∨ (st.memory.next ≤ a ∧ a < st'.memory.next)

/-- The process whose store is the one `registerCRD` leaves of `Widget`. -/
def widgetProcess : Process :=
  (Process.registerCRD (specDeps hoistSingleVersion) NewProcess widgetV1).1

/-- A caller that reads the validation schema of `Widget` and all entries, and
writes to the object of `Widget` in the store (address 1) and to objects the
reads made (from address 2 on). -/
def widgetReads : List MemoryStep :=
  [MemoryStep.GetCRDSchemaValidation { Group := "example.org", Version := "v1", Kind := "Widget" },
    MemoryStep.GetAll [{ Group := "example.org", Kind := "Widget" },
      { Group := "example.org", Kind := "Gadget" }],
    MemoryStep.write 1 { OpenAPIV3Schema := none },
    MemoryStep.write 2 { OpenAPIV3Schema := none },
    MemoryStep.write 3 { OpenAPIV3Schema := none }]

/-! ## Closed form of the augmentation -/

/-- Insert an entry unless its key is already present. -/
def insertAbsent {ν : Type} (q : GoMap ν) (e : String × ν) : GoMap ν :=
  if (q e.1).isSome then q else q.set e.1 e.2

/-- The `metadata` property after augmentation, from what `metadata` held before. -/
def augmentedMetadata (entries : List (String × JSONSchemaProps))
    (o : Option JSONSchemaProps) : JSONSchemaProps :=
  let md := o.getD (JSONSchemaProps.mk "" "object" [] (some GoMap.empty) none)
  md.setProperties (some (entries.foldl insertAbsent (md.Properties.getD GoMap.empty)))

/-- The sub-field `name` declared under `metadata` in a root schema, if any. -/
def metaField (root : JSONSchemaProps) (name : String) : Option JSONSchemaProps :=
  match root.Properties with
  | none => none
  | some P =>
    match P "metadata" with
    | none => none
    | some md =>
      match md.Properties with
      | none => none
      | some q => q name

namespace JSONSchemaProps

@[simp] theorem Properties_setProperties (p : JSONSchemaProps) (m) :
    (p.setProperties m).Properties = m := by
  cases p; rfl

@[simp] theorem Type_setProperties (p : JSONSchemaProps) (m) :
    (p.setProperties m).Type_ = p.Type_ := by
  cases p; rfl

@[simp] theorem Description_setProperties (p : JSONSchemaProps) (m) :
    (p.setProperties m).Description = p.Description := by
  cases p; rfl

@[simp] theorem Required_setProperties (p : JSONSchemaProps) (m) :
    (p.setProperties m).Required = p.Required := by
  cases p; rfl

@[simp] theorem AdditionalProperties_setProperties (p : JSONSchemaProps) (m) :
    (p.setProperties m).AdditionalProperties = p.AdditionalProperties := by
  cases p; rfl

@[simp] theorem setProperties_setProperties (p : JSONSchemaProps) (m n) :
    (p.setProperties m).setProperties n = p.setProperties n := by
  cases p; rfl

theorem setProperties_self (p : JSONSchemaProps) (m) (h : p.Properties = m) :
    p.setProperties m = p := by
  cases p; cases h; rfl

end JSONSchemaProps

theorem GoMap.set_self {ν : Type} (m : GoMap ν) (k : String) (v : ν) (h : m k = some v) :
    m.set k v = m := by
  funext k'
  unfold GoMap.set
  split
  · next hk => rw [hk, h]
  · rfl

@[simp] theorem GoMap.set_same {ν : Type} (m : GoMap ν) (k : String) (v : ν) :
    m.set k v k = some v := by
  simp [GoMap.set]

theorem GoMap.set_other {ν : Type} (m : GoMap ν) (k k' : String) (v : ν) (h : k' ≠ k) :
    m.set k v k' = m k' := by
  simp [GoMap.set, h]

@[simp] theorem GoMap.set_set {ν : Type} (m : GoMap ν) (k : String) (v w : ν) :
    (m.set k v).set k w = m.set k w := by
  funext k'
  unfold GoMap.set
  split <;> rfl


/-! ## The augmentation in closed form -/

theorem metaObject_setProperties_empty :
    (JSONSchemaProps.mk "" "object" [] (some GoMap.empty) none).Properties = some GoMap.empty := rfl

/-- One turn of the loop, when `metadata` is present with a properties map. -/
theorem addMetaProp_eq (root : JSONSchemaProps) (P : GoMap JSONSchemaProps)
    (md : JSONSchemaProps) (q : GoMap JSONSchemaProps) (e : String × JSONSchemaProps)
    (hP : root.Properties = some P) (hmd : P "metadata" = some md)
    (hq : md.Properties = some q) :
    addMetaProp root e = .ok (root.setProperties
      (some (P.set "metadata" (md.setProperties (some (insertAbsent q e)))))) := by
  unfold addMetaProp insertAbsent
  cases hqe : q e.1 with
  | none =>
    simp [mapIndex, mapAssign, hP, hmd, hq, hqe, bind, Except.bind, pure, Except.pure]
  | some v =>
    simp only [mapIndex, hP, hmd, hq, hqe, Option.isSome_some, if_true]
    rw [JSONSchemaProps.setProperties_self md _ hq, GoMap.set_self P _ _ hmd,
      JSONSchemaProps.setProperties_self root _ hP]

/-- The loop, when `metadata` is present with a properties map. -/
theorem addMetaProps_eq (entries : List (String × JSONSchemaProps)) :
    ∀ (root : JSONSchemaProps) (P : GoMap JSONSchemaProps) (md : JSONSchemaProps)
      (q : GoMap JSONSchemaProps),
      root.Properties = some P → P "metadata" = some md → md.Properties = some q →
      addMetaProps root entries = .ok (root.setProperties
        (some (P.set "metadata" (md.setProperties (some (entries.foldl insertAbsent q)))))) := by
  induction entries with
  | nil =>
    intro root P md q hP hmd hq
    simp only [addMetaProps, List.foldl_nil]
    rw [JSONSchemaProps.setProperties_self md _ hq, GoMap.set_self P _ _ hmd,
      JSONSchemaProps.setProperties_self root _ hP]
  | cons e rest ih =>
    intro root P md q hP hmd hq
    simp only [addMetaProps, addMetaProp_eq root P md q e hP hmd hq, List.foldl_cons]
    rw [ih _ (P.set "metadata" (md.setProperties (some (insertAbsent q e))))
      (md.setProperties (some (insertAbsent q e))) (insertAbsent q e)
      (by simp) (by simp) (by simp)]
    simp

/-- The augmentation of a root schema whose properties map is nil panics. -/
theorem addMetaDataToRoot_nil (entries : List (String × JSONSchemaProps))
    (root : JSONSchemaProps) (hP : root.Properties = none) :
    addMetaDataToRoot entries root = .error Panic.nilMapWrite := by
  simp [addMetaDataToRoot, ensureMetadata, mapIndex, mapAssign, hP, bind, Except.bind]

/-- The augmentation of a root schema with a properties map, in closed form. -/
theorem addMetaDataToRoot_eq (entries : List (String × JSONSchemaProps))
    (root : JSONSchemaProps) (P : GoMap JSONSchemaProps) (hP : root.Properties = some P) :
    addMetaDataToRoot entries root = .ok (root.setProperties
      (some (P.set "metadata" (augmentedMetadata entries (P "metadata"))))) := by
  unfold addMetaDataToRoot augmentedMetadata
  cases hmd : P "metadata" with
  | none =>
    simp only [ensureMetadata, mapIndex, hP, hmd, mapAssign, bind, Except.bind, pure,
      Except.pure, Bool.false_eq_true, if_false]
    simp only [ensureMetadataProperties, mapIndex, JSONSchemaProps.Properties_setProperties,
      GoMap.set_same, metaObject_setProperties_empty, Option.isNone_some, Bool.false_eq_true,
      if_false, Option.getD_none, Option.getD_some]
    rw [addMetaProps_eq entries _
      (P.set "metadata" (JSONSchemaProps.mk "" "object" [] (some GoMap.empty) none))
      (JSONSchemaProps.mk "" "object" [] (some GoMap.empty) none) GoMap.empty
      (by simp) (by simp) metaObject_setProperties_empty]
    simp
  | some md =>
    simp only [ensureMetadata, mapIndex, hP, hmd, if_true]
    cases hq : md.Properties with
    | none =>
      simp only [ensureMetadataProperties, mapIndex, hP, hmd, hq, Option.isNone_none, if_true,
        mapAssign, bind, Except.bind, pure, Except.pure, Option.getD_none, Option.getD_some]
      rw [addMetaProps_eq entries _ (P.set "metadata" (md.setProperties (some GoMap.empty)))
        (md.setProperties (some GoMap.empty)) GoMap.empty (by simp) (by simp) (by simp)]
      simp
    | some q =>
      simp only [ensureMetadataProperties, mapIndex, hP, hmd, hq, Option.isNone_some,
        Bool.false_eq_true, if_false, Option.getD_some]
      rw [addMetaProps_eq entries root P md q hP hmd hq]

/-! ## Properties of the insertion of absent keys -/

theorem insertAbsent_of_isSome {ν : Type} (q : GoMap ν) (e : String × ν)
    (h : (q e.1).isSome = true) : insertAbsent q e = q := by
  simp [insertAbsent, h]

/-- A key that is present keeps its value. -/
theorem insertAbsent_keeps {ν : Type} (q : GoMap ν) (e : String × ν) (k : String) (v : ν)
    (h : q k = some v) : insertAbsent q e k = some v := by
  unfold insertAbsent
  split
  · exact h
  · next hne =>
    have hk : k ≠ e.1 := by
      intro hk
      rw [hk] at h
      simp [h] at hne
    rw [GoMap.set_other _ _ _ _ hk, h]

/-- Another key is not touched. -/
theorem insertAbsent_other {ν : Type} (q : GoMap ν) (e : String × ν) (k : String)
    (h : k ≠ e.1) : insertAbsent q e k = q k := by
  unfold insertAbsent
  split
  · rfl
  · exact GoMap.set_other _ _ _ _ h

/-- An absent key receives the entry's value. -/
theorem insertAbsent_absent {ν : Type} (q : GoMap ν) (e : String × ν) (h : q e.1 = none) :
    insertAbsent q e e.1 = some e.2 := by
  simp [insertAbsent, h]

theorem foldl_insertAbsent_keeps {ν : Type} (es : List (String × ν)) :
    ∀ (q : GoMap ν) (k : String) (v : ν), q k = some v →
      es.foldl insertAbsent q k = some v := by
  induction es with
  | nil => intro q k v h; exact h
  | cons e rest ih =>
    intro q k v h
    exact ih _ k v (insertAbsent_keeps q e k v h)

theorem foldl_insertAbsent_other {ν : Type} (es : List (String × ν)) :
    ∀ (q : GoMap ν) (k : String), (∀ e ∈ es, k ≠ e.1) → es.foldl insertAbsent q k = q k := by
  induction es with
  | nil => intro q k _; rfl
  | cons e rest ih =>
    intro q k h
    rw [List.foldl_cons, ih _ k (fun e' he' => h e' (List.mem_cons_of_mem _ he')),
      insertAbsent_other q e k (h e (List.mem_cons_self _ _))]

/-- Every key of the entries is present after the insertions. -/
theorem foldl_insertAbsent_isSome {ν : Type} (es : List (String × ν)) :
    ∀ (q : GoMap ν), ∀ e ∈ es, (es.foldl insertAbsent q e.1).isSome = true := by
  induction es with
  | nil => intro q e he; cases he
  | cons e0 rest ih =>
    intro q e he
    rw [List.foldl_cons]
    rcases List.mem_cons.1 he with rfl | hrest
    · cases hq : q e.1 with
      | none =>
        rw [foldl_insertAbsent_keeps rest _ e.1 e.2 (insertAbsent_absent q e hq)]
        rfl
      | some v =>
        rw [foldl_insertAbsent_keeps rest _ e.1 v (insertAbsent_keeps q e e.1 v hq)]
        rfl
    · exact ih _ e hrest

/-- An absent key whose first entry in the list carries `v` receives `v`. -/
theorem foldl_insertAbsent_absent {ν : Type} (es : List (String × ν)) :
    ∀ (q : GoMap ν) (k : String) (v : ν), q k = none →
      es.lookup k = some v → es.foldl insertAbsent q k = some v := by
  induction es with
  | nil => intro q k v _ h; simp at h
  | cons e rest ih =>
    intro q k v hq hl
    rw [List.foldl_cons]
    by_cases hk : k = e.1
    · have hv : e.2 = v := by
        cases e with
        | mk a b =>
          simp only at hk
          subst hk
          simpa [List.lookup] using hl
      subst hk
      rw [foldl_insertAbsent_keeps rest _ e.1 e.2 (insertAbsent_absent q e hq), hv]
    · have hl' : rest.lookup k = some v := by
        cases e with
        | mk a b =>
          simp only at hk
          have : (k == a) = false := by simpa using hk
          simpa [List.lookup, this] using hl
      exact ih _ k v (by rw [insertAbsent_other q e k hk]; exact hq) hl'

/-- Inserting the same entries again changes nothing. -/
theorem foldl_insertAbsent_fixed {ν : Type} (es : List (String × ν)) :
    ∀ (q : GoMap ν), (∀ e ∈ es, (q e.1).isSome = true) → es.foldl insertAbsent q = q := by
  induction es with
  | nil => intro q _; rfl
  | cons e rest ih =>
    intro q h
    rw [List.foldl_cons, insertAbsent_of_isSome q e (h e (List.mem_cons_self _ _))]
    exact ih q (fun e' he' => h e' (List.mem_cons_of_mem _ he'))

theorem foldl_insertAbsent_idem {ν : Type} (es : List (String × ν)) (q : GoMap ν) :
    es.foldl insertAbsent (es.foldl insertAbsent q) = es.foldl insertAbsent q :=
  foldl_insertAbsent_fixed es _ (foldl_insertAbsent_isSome es q)

/-- Two insertions with different keys commute. -/
theorem insertAbsent_comm {ν : Type} (q : GoMap ν) (a b : String × ν) (h : a.1 ≠ b.1) :
    insertAbsent (insertAbsent q a) b = insertAbsent (insertAbsent q b) a := by
  funext k
  by_cases ha : k = a.1
  · subst ha
    rw [insertAbsent_other _ b _ h]
    cases hq : q a.1 with
    | none =>
      rw [insertAbsent_absent q a hq,
        insertAbsent_absent _ a (by rw [insertAbsent_other q b _ h]; exact hq)]
    | some v =>
      rw [insertAbsent_keeps q a _ v hq,
        insertAbsent_keeps _ a _ v (insertAbsent_keeps q b _ v hq)]
  · rw [insertAbsent_other _ a k ha]
    by_cases hb : k = b.1
    · subst hb
      cases hq : q b.1 with
      | none =>
        rw [insertAbsent_absent q b hq,
          insertAbsent_absent _ b (by rw [insertAbsent_other q a _ (Ne.symm h)]; exact hq)]
      | some v =>
        rw [insertAbsent_keeps q b _ v hq,
          insertAbsent_keeps _ b _ v (insertAbsent_keeps q a _ v hq)]
    · rw [insertAbsent_other _ b k hb, insertAbsent_other _ a k ha, insertAbsent_other _ b k hb]

/-- The order in which entries with pairwise different keys are inserted does not matter. -/
theorem foldl_insertAbsent_perm {ν : Type} (es es' : List (String × ν)) (hp : es.Perm es')
    (hk : ∀ a ∈ es, ∀ b ∈ es, a.1 = b.1 → a = b) (q : GoMap ν) :
    es.foldl insertAbsent q = es'.foldl insertAbsent q := by
  apply List.Perm.foldl_eq' hp
  intro a ha b hb z
  by_cases hab : a.1 = b.1
  · rw [hk a ha b hb hab]
  · exact insertAbsent_comm z a b hab

/-! ## What the augmentation returns -/

/-- The nested properties of `metadata` before augmentation, read as a map
(no `metadata`, or a `metadata` without properties map, reads as empty). -/
theorem metaField_eq (root : JSONSchemaProps) (P : GoMap JSONSchemaProps)
    (hP : root.Properties = some P) (name : String) :
    metaField root name =
      (((P "metadata").getD (JSONSchemaProps.mk "" "object" [] (some GoMap.empty) none)).Properties.getD
        GoMap.empty) name := by
  unfold metaField
  simp only [hP]
  cases hmd : P "metadata" with
  | none => simp [GoMap.empty, JSONSchemaProps.Properties]
  | some md =>
    cases hq : md.Properties with
    | none => simp [hq, GoMap.empty]
    | some q => simp [hq]

/-- The nested properties of `metadata` after augmentation. -/
theorem metaField_augmented (entries : List (String × JSONSchemaProps))
    (root : JSONSchemaProps) (P : GoMap JSONSchemaProps) (name : String) :
    metaField (root.setProperties
        (some (P.set "metadata" (augmentedMetadata entries (P "metadata"))))) name =
      entries.foldl insertAbsent
        (((P "metadata").getD (JSONSchemaProps.mk "" "object" [] (some GoMap.empty) none)).Properties.getD
          GoMap.empty) name := by
  simp [metaField, augmentedMetadata]

/-- Whatever completes was given a root schema with a properties map, and
returns that root with an augmented `metadata`. -/
theorem addMetaDataToSchema_ok (crdv : Option CustomResourceValidation)
    (r : CustomResourceValidation) (h : addMetaDataToSchema crdv = .ok r) :
    ∃ v root P, crdv = some v ∧ v.OpenAPIV3Schema = some root ∧ root.Properties = some P ∧
      r = { OpenAPIV3Schema := some (root.setProperties
        (some (P.set "metadata" (augmentedMetadata additionalMetaProps (P "metadata"))))) } := by
  unfold addMetaDataToSchema at h
  cases crdv with
  | none => simp at h
  | some v =>
    cases hroot : v.OpenAPIV3Schema with
    | none => simp [hroot] at h
    | some root =>
      cases hP : root.Properties with
      | none => simp [hroot, addMetaDataToRoot_nil _ root hP] at h
      | some P =>
        simp only [hroot, addMetaDataToRoot_eq _ root P hP] at h
        exact ⟨v, root, P, rfl, hroot, hP, (Except.ok.inj h).symm⟩

/-- A schema whose root has a properties map is augmented without a fault. -/
theorem addMetaDataToSchema_eq (v : CustomResourceValidation) (root : JSONSchemaProps)
    (P : GoMap JSONSchemaProps) (hroot : v.OpenAPIV3Schema = some root)
    (hP : root.Properties = some P) :
    addMetaDataToSchema (some v) = .ok { OpenAPIV3Schema := some (root.setProperties
      (some (P.set "metadata" (augmentedMetadata additionalMetaProps (P "metadata"))))) } := by
  simp only [addMetaDataToSchema, hroot, addMetaDataToRoot_eq _ root P hP]

/-- Augmenting an augmented `metadata` yields it again. -/
theorem augmentedMetadata_idem (entries : List (String × JSONSchemaProps))
    (o : Option JSONSchemaProps) :
    augmentedMetadata entries (some (augmentedMetadata entries o)) = augmentedMetadata entries o := by
  simp [augmentedMetadata, foldl_insertAbsent_idem]

/-- The loop of `addMetaDataToSchema` ranges over a Go map, in an order the
language leaves open: whatever order is taken, the result is the same. -/
theorem addMetaDataToRoot_order (entries : List (String × JSONSchemaProps))
    (hp : additionalMetaProps.Perm entries) (root : JSONSchemaProps) :
    addMetaDataToRoot entries root = addMetaDataToRoot additionalMetaProps root := by
  cases hP : root.Properties with
  | none => rw [addMetaDataToRoot_nil _ root hP, addMetaDataToRoot_nil _ root hP]
  | some P =>
    rw [addMetaDataToRoot_eq _ root P hP, addMetaDataToRoot_eq _ root P hP]
    have hkeys : ∀ a ∈ additionalMetaProps, ∀ b ∈ additionalMetaProps, a.1 = b.1 → a = b := by
      intro a ha b hb hab
      simp only [additionalMetaProps, List.mem_cons, List.mem_singleton, List.not_mem_nil,
        or_false] at ha hb
      rcases ha with rfl | rfl | rfl | rfl | rfl <;> rcases hb with rfl | rfl | rfl | rfl | rfl <;>
        first
          | rfl
          | (exfalso; revert hab; decide)
    simp only [augmentedMetadata, foldl_insertAbsent_perm _ _ hp hkeys]

/-! ## Claims on the augmentation -/

/-- C1: metadata augmentation is idempotent. For every validation schema on
which `addMetaDataToSchema` completes, leaving the schema `r`, applying it a
second time completes and leaves a schema equal to `r`. -/
theorem addMetaDataToSchema_idempotent (crdv : Option CustomResourceValidation)
    (r : CustomResourceValidation) (h : addMetaDataToSchema crdv = .ok r) :
    addMetaDataToSchema (some r) = .ok r := by
  obtain ⟨v, root, P, _, _, _, hr⟩ := addMetaDataToSchema_ok crdv r h
  subst hr
  rw [addMetaDataToSchema_eq _ _ (P.set "metadata"
    (augmentedMetadata additionalMetaProps (P "metadata"))) rfl (by simp)]
  simp [augmentedMetadata_idem]

/-- C1, at a schema that declares `spec` only: the first application adds
`metadata` with the five fields, the second leaves that result as it is. -/
theorem addMetaDataToSchema_idempotent_witness :
    addMetaDataToSchema (some widgetSchema) = .ok widgetAugmented ∧
      addMetaDataToSchema (some widgetAugmented) = .ok widgetAugmented :=
  ⟨(addMetaDataToSchema_eq widgetSchema _ _ rfl rfl).trans rfl,
    addMetaDataToSchema_idempotent (some widgetSchema) widgetAugmented
      ((addMetaDataToSchema_eq widgetSchema _ _ rfl rfl).trans rfl)⟩

/-- C2: a sub-field already declared under `metadata`, whatever its name (one
of name, namespace, labels, annotations, uid, or any other) and whatever its
schema, is still declared with exactly that schema after
`addMetaDataToSchema`, which completes on such a schema. -/
theorem addMetaDataToSchema_keeps_declared (v : CustomResourceValidation)
    (root : JSONSchemaProps) (name : String) (p : JSONSchemaProps)
    (hroot : v.OpenAPIV3Schema = some root) (hdecl : metaField root name = some p) :
    ∃ r root', addMetaDataToSchema (some v) = .ok r ∧ r.OpenAPIV3Schema = some root' ∧
      metaField root' name = some p := by
  cases hP : root.Properties with
  | none => simp [metaField, hP] at hdecl
  | some P =>
    refine ⟨_, _, addMetaDataToSchema_eq v root P hroot hP, rfl, ?_⟩
    rw [metaField_augmented]
    rw [metaField_eq root P hP] at hdecl
    exact foldl_insertAbsent_keeps _ _ _ _ hdecl

/-- C2, at a schema whose `metadata` declares `name` as an integer and a
field `owner`: both are read back unchanged after the augmentation. -/
theorem addMetaDataToSchema_keeps_declared_witness :
    (∃ r root', addMetaDataToSchema (some typedNameSchema) = .ok r ∧
      r.OpenAPIV3Schema = some root' ∧
      metaField root' "name" = some (JSONSchemaProps.mk "" "integer" [] none none)) ∧
    (∃ r root', addMetaDataToSchema (some typedNameSchema) = .ok r ∧
      r.OpenAPIV3Schema = some root' ∧
      metaField root' "owner" = some (JSONSchemaProps.mk "the owner" "string" [] none none)) :=
  ⟨addMetaDataToSchema_keeps_declared typedNameSchema _ "name" _ rfl rfl,
    addMetaDataToSchema_keeps_declared typedNameSchema _ "owner" _ rfl rfl⟩

/-! ## Reading the store -/

theorem GetCRDSchema_eq_lookup (s : SchemaStore) (gk : GroupKind) :
    s.GetCRDSchema gk = s.crds.lookup gk := by
  unfold SchemaStore.GetCRDSchema CustomResourceDefinition.DeepCopy
  cases s.crds.lookup gk <;> rfl

/-- The loop over the versions stops at the first version with the requested label. -/
theorem scanVersions_find (version : String) (vs : List CustomResourceDefinitionVersion) :
    SchemaStore.scanVersions version vs =
      match vs.find? (fun v => decide (v.Name = version)) with
      | some v => (addMetaDataToSchema v.Schema).map some
      | none => .ok none := by
  induction vs with
  | nil => rfl
  | cons v rest ih =>
    by_cases hv : v.Name = version
    · simp only [SchemaStore.scanVersions, hv, if_true, List.find?_cons, decide_True]
      cases addMetaDataToSchema v.Schema <;> rfl
    · simp only [SchemaStore.scanVersions, hv, if_false, List.find?_cons, decide_False]
      exact ih

/-- A schema returned by `GetCRDSchemaValidation` is the augmentation of the
schema the lookup selected in the entry. -/
theorem GetCRDSchemaValidation_some (s : SchemaStore) (gvk : GroupVersionKind)
    (v : CustomResourceValidation) (h : s.GetCRDSchemaValidation gvk = .ok (some v)) :
    ∃ crd orig, s.GetCRDSchema gvk.GroupKind = some crd ∧
      (crd.Spec.Validation = some orig ∨
        (crd.Spec.Validation = none ∧
          ∃ ver ∈ crd.Spec.Versions, ver.Name = gvk.Version ∧ ver.Schema = some orig)) ∧
      addMetaDataToSchema (some orig) = .ok v := by
  unfold SchemaStore.GetCRDSchemaValidation at h
  cases hcrd : s.GetCRDSchema gvk.GroupKind with
  | none => simp [hcrd] at h
  | some crd =>
    simp only [hcrd] at h
    cases hval : crd.Spec.Validation with
    | some validation =>
      simp only [hval] at h
      cases hadd : addMetaDataToSchema (some validation) with
      | error e => simp [hadd] at h
      | ok r =>
        simp only [hadd, Except.ok.injEq, Option.some.injEq] at h
        exact ⟨crd, validation, rfl, Or.inl hval, by rw [hadd, h]⟩
    | none =>
      simp only [hval, scanVersions_find] at h
      cases hfind : crd.Spec.Versions.find? (fun v => decide (v.Name = gvk.Version)) with
      | none => simp [hfind] at h
      | some ver =>
        simp only [hfind] at h
        have hmem := List.mem_of_find?_eq_some hfind
        have hname : ver.Name = gvk.Version := by
          simpa using List.find?_some hfind
        cases hs : ver.Schema with
        | none => simp [hs, addMetaDataToSchema, Except.map] at h
        | some orig =>
          rw [hs] at h
          cases hadd : addMetaDataToSchema (some orig) with
          | error e => simp [hadd, Except.map] at h
          | ok r =>
            simp only [hadd, Except.map, Except.ok.injEq, Option.some.injEq] at h
            exact ⟨crd, orig, rfl, Or.inr ⟨hval, ver, hmem, hname, hs⟩, by rw [hadd, h]⟩

/-- C3: whenever `GetCRDSchemaValidation` returns a schema `v`, it is the
augmentation of the schema `orig` selected in the stored entry (the
unversioned one, or that of a version with the requested label), and under
`metadata` it declares every one of name, namespace, labels, annotations and
uid: with the canonical schema of `additionalMetaProps` (string for name,
for namespace and for uid; an object with string-valued additional properties
allowed for labels and annotations) where `orig` did not declare the field. -/
theorem GetCRDSchemaValidation_has_metadata (s : SchemaStore) (gvk : GroupVersionKind)
    (v : CustomResourceValidation) (h : s.GetCRDSchemaValidation gvk = .ok (some v)) :
    ∃ crd orig root root', s.GetCRDSchema gvk.GroupKind = some crd ∧
      (crd.Spec.Validation = some orig ∨
        (crd.Spec.Validation = none ∧
          ∃ ver ∈ crd.Spec.Versions, ver.Name = gvk.Version ∧ ver.Schema = some orig)) ∧
      orig.OpenAPIV3Schema = some root ∧ v.OpenAPIV3Schema = some root' ∧
      (∀ name ∈ ["name", "namespace", "labels", "annotations", "uid"],
        (metaField root' name).isSome = true) ∧
      (∀ name ∈ ["name", "namespace", "uid"], metaField root name = none →
        metaField root' name = some (JSONSchemaProps.mk "" "string" [] none none)) ∧
      (∀ name ∈ ["labels", "annotations"], metaField root name = none →
        metaField root' name = some (JSONSchemaProps.mk "" "object" [] none
          (some (JSONSchemaPropsOrBool.mk true
            (some (JSONSchemaProps.mk "" "string" [] none none)))))) := by
  obtain ⟨crd, orig, hcrd, hsel, hadd⟩ := GetCRDSchemaValidation_some s gvk v h
  obtain ⟨v0, root, P, hv0, hroot, hP, hr⟩ := addMetaDataToSchema_ok _ _ hadd
  cases hv0
  subst hr
  refine ⟨crd, orig, root, _, hcrd, hsel, hroot, rfl, ?_, ?_, ?_⟩
  · intro name hname
    rw [metaField_augmented]
    have hmem : ∃ e ∈ additionalMetaProps, e.1 = name := by
      simp only [List.mem_cons, List.mem_singleton, List.not_mem_nil, or_false] at hname
      rcases hname with rfl | rfl | rfl | rfl | rfl <;> simp [additionalMetaProps]
    obtain ⟨e, he, rfl⟩ := hmem
    exact foldl_insertAbsent_isSome _ _ e he
  · intro name hname hnone
    rw [metaField_augmented]
    rw [metaField_eq root P hP] at hnone
    apply foldl_insertAbsent_absent _ _ _ _ hnone
    simp only [List.mem_cons, List.mem_singleton, List.not_mem_nil, or_false] at hname
    rcases hname with rfl | rfl | rfl <;> rfl
  · intro name hname hnone
    rw [metaField_augmented]
    rw [metaField_eq root P hP] at hnone
    apply foldl_insertAbsent_absent _ _ _ _ hnone
    simp only [List.mem_cons, List.mem_singleton, List.not_mem_nil, or_false] at hname
    rcases hname with rfl | rfl <;> rfl

theorem widgetSchema_augmented : addMetaDataToSchema (some widgetSchema) = .ok widgetAugmented :=
  (addMetaDataToSchema_eq widgetSchema _ _ rfl rfl).trans rfl

theorem widgetStore_entry :
    widgetStore.GetCRDSchema { Group := "example.org", Kind := "Widget" } = some widgetEntry := rfl

theorem widgetStore_validation :
    widgetStore.GetCRDSchemaValidation
      { Group := "example.org", Version := "v1", Kind := "Widget" } =
      .ok (some widgetAugmented) := by
  simp only [SchemaStore.GetCRDSchemaValidation, GroupVersionKind.GroupKind, widgetStore_entry,
    widgetEntry, widgetSchema_augmented]

/-- C3, at the store that holds `Widget` of `example.org`, whose author
declared `spec` only: the schema returned declares the five fields. -/
theorem GetCRDSchemaValidation_has_metadata_witness :
    widgetStore.GetCRDSchemaValidation
        { Group := "example.org", Version := "v1", Kind := "Widget" } =
      .ok (some widgetAugmented) ∧
    ∃ crd orig root root',
      widgetStore.GetCRDSchema
        (GroupVersionKind.GroupKind
          { Group := "example.org", Version := "v1", Kind := "Widget" }) = some crd ∧
      (crd.Spec.Validation = some orig ∨
        (crd.Spec.Validation = none ∧
          ∃ ver ∈ crd.Spec.Versions, ver.Name = "v1" ∧ ver.Schema = some orig)) ∧
      orig.OpenAPIV3Schema = some root ∧ widgetAugmented.OpenAPIV3Schema = some root' ∧
      (∀ name ∈ ["name", "namespace", "labels", "annotations", "uid"],
        (metaField root' name).isSome = true) ∧
      (∀ name ∈ ["name", "namespace", "uid"], metaField root name = none →
        metaField root' name = some (JSONSchemaProps.mk "" "string" [] none none)) ∧
      (∀ name ∈ ["labels", "annotations"], metaField root name = none →
        metaField root' name = some (JSONSchemaProps.mk "" "object" [] none
          (some (JSONSchemaPropsOrBool.mk true
            (some (JSONSchemaProps.mk "" "string" [] none none)))))) :=
  ⟨widgetStore_validation,
    GetCRDSchemaValidation_has_metadata widgetStore
      { Group := "example.org", Version := "v1", Kind := "Widget" } widgetAugmented
      widgetStore_validation⟩

/-! ## Registration -/

theorem registerCRD_ok (d : Deps) (s : SchemaStore) (crd : V1CustomResourceDefinition)
    (e : CustomResourceDefinition) (h : d.Convert crd = .ok e) :
    SchemaStore.registerCRD d s crd =
      ({ crds := s.crds.insert { Group := crd.Spec.Group, Kind := crd.Spec.Names.Kind } e },
        none) := by
  simp [SchemaStore.registerCRD, h]

theorem registerCRD_error (d : Deps) (s : SchemaStore) (crd : V1CustomResourceDefinition)
    (err : String) (h : d.Convert crd = .error err) :
    SchemaStore.registerCRD d s crd = (s, some err) := by
  simp [SchemaStore.registerCRD, h]

/-- A key of a finite map heads exactly one of its entries. -/
theorem entries_of_key (m : Finmap (fun _ : GroupKind => CustomResourceDefinition))
    (gk : GroupKind) (h : gk ∈ m) :
    Multiset.card (m.entries.filter (fun e => gk = e.1)) = 1 := by
  have hcount : Multiset.count gk m.entries.keys = 1 :=
    Multiset.count_eq_one_of_mem (Multiset.nodup_keys.2 m.nodupKeys) (Finmap.mem_def.1 h)
  rw [← hcount, Multiset.keys, Multiset.count_map]

/-- A finite map with a key inserted has that key and the keys it had. -/
theorem keys_insert (m : Finmap (fun _ : GroupKind => CustomResourceDefinition))
    (gk : GroupKind) (e : CustomResourceDefinition) :
    (m.insert gk e).keys = insert gk m.keys := by
  ext a
  simp [Finmap.mem_keys, Finmap.mem_insert]

/-- C4: last write wins. When two definitions with the same group and kind
both convert, registering the first and then the second succeeds twice and
leaves exactly one entry under that group and kind; `GetCRDSchema` returns
the converted second definition, and the store is the one that registering
the second alone would have left (nothing of the first is merged in). -/
theorem registerCRD_last_write_wins (d : Deps) (s : SchemaStore)
    (crd1 crd2 : V1CustomResourceDefinition) (e1 e2 : CustomResourceDefinition)
    (hg : crd1.Spec.Group = crd2.Spec.Group)
    (hk : crd1.Spec.Names.Kind = crd2.Spec.Names.Kind)
    (h1 : d.Convert crd1 = .ok e1) (h2 : d.Convert crd2 = .ok e2) :
    (SchemaStore.registerCRD d s crd1).2 = none ∧
    (SchemaStore.registerCRD d (SchemaStore.registerCRD d s crd1).1 crd2).2 = none ∧
    Multiset.card
      ((SchemaStore.registerCRD d (SchemaStore.registerCRD d s crd1).1 crd2).1.crds.entries.filter
        (fun e => GroupKind.mk crd2.Spec.Group crd2.Spec.Names.Kind = e.1)) = 1 ∧
    (SchemaStore.registerCRD d (SchemaStore.registerCRD d s crd1).1 crd2).1.GetCRDSchema
      { Group := crd2.Spec.Group, Kind := crd2.Spec.Names.Kind } = some e2 ∧
    (SchemaStore.registerCRD d (SchemaStore.registerCRD d s crd1).1 crd2).1 =
      (SchemaStore.registerCRD d s crd2).1 := by
  rw [registerCRD_ok d s crd1 e1 h1, registerCRD_ok d _ crd2 e2 h2, registerCRD_ok d s crd2 e2 h2]
  refine ⟨rfl, rfl, ?_, ?_, ?_⟩
  · exact entries_of_key _ _ (Finmap.mem_insert.2 (Or.inl rfl))
  · rw [GetCRDSchema_eq_lookup]
    exact Finmap.lookup_insert _
  · simp only [hg, hk, Finmap.insert_insert]

/-- C4, at two definitions of `Widget` of `example.org` registered in turn in
a new store: one entry, the second definition's. -/
theorem registerCRD_last_write_wins_witness :
    (SchemaStore.registerCRD (specDeps keepVersions) NewSchemaStore widgetV1).2 = none ∧
    (SchemaStore.registerCRD (specDeps keepVersions)
      (SchemaStore.registerCRD (specDeps keepVersions) NewSchemaStore widgetV1).1
      widgetV1Typed).2 = none ∧
    Multiset.card
      ((SchemaStore.registerCRD (specDeps keepVersions)
        (SchemaStore.registerCRD (specDeps keepVersions) NewSchemaStore widgetV1).1
        widgetV1Typed).1.crds.entries.filter
        (fun e => GroupKind.mk widgetV1Typed.Spec.Group widgetV1Typed.Spec.Names.Kind = e.1)) = 1 ∧
    (SchemaStore.registerCRD (specDeps keepVersions)
      (SchemaStore.registerCRD (specDeps keepVersions) NewSchemaStore widgetV1).1
      widgetV1Typed).1.GetCRDSchema
      { Group := widgetV1Typed.Spec.Group, Kind := widgetV1Typed.Spec.Names.Kind } =
        some widgetTypedEntry ∧
    (SchemaStore.registerCRD (specDeps keepVersions)
      (SchemaStore.registerCRD (specDeps keepVersions) NewSchemaStore widgetV1).1
      widgetV1Typed).1 =
      (SchemaStore.registerCRD (specDeps keepVersions) NewSchemaStore widgetV1Typed).1 :=
  registerCRD_last_write_wins (specDeps keepVersions) NewSchemaStore widgetV1 widgetV1Typed
    widgetKeptEntry widgetTypedEntry rfl rfl rfl rfl

/-! ## Reads leave the store alone -/

theorem Memory.place_next (m : Memory) (v : Option CustomResourceValidation) :
    m.next ≤ (m.place v).2.next := by
  cases v <;> simp [Memory.place, Memory.new]

theorem Memory.place_cells (m : Memory) (v : Option CustomResourceValidation) (a : Addr)
    (h : a < m.next) : (m.place v).2.cells a = m.cells a := by
  cases v
  · rfl
  · simp [Memory.place, Memory.new, Nat.ne_of_lt h]

theorem Memory.place_addr (m : Memory) (v : Option CustomResourceValidation) (a : Addr)
    (h : (m.place v).1 = some a) : m.next ≤ a ∧ a < (m.place v).2.next := by
  cases v
  · simp [Memory.place] at h
  · simp only [Memory.place, Memory.new, Option.some.injEq] at h
    subst h
    exact ⟨Nat.le_refl _, Nat.lt_succ_self _⟩

theorem Memory.place_load (m : Memory) (v : Option CustomResourceValidation) :
    (m.place v).2.load (m.place v).1 = v := by
  cases v <;> simp [Memory.place, Memory.new, Memory.load]

theorem Memory.load_congr (m m' : Memory) (p : Option Addr)
    (h : ∀ a, p = some a → m'.cells a = m.cells a) : m'.load p = m.load p := by
  cases p
  · rfl
  · simp [Memory.load, h]

theorem Memory.placeVersions_next (vs : List CustomResourceDefinitionVersion) :
    ∀ m : Memory, m.next ≤ (m.placeVersions vs).2.next := by
  induction vs with
  | nil => intro m; exact Nat.le_refl _
  | cons v rest ih =>
    intro m
    exact Nat.le_trans (m.place_next v.Schema) (ih _)

theorem Memory.placeVersions_cells (vs : List CustomResourceDefinitionVersion) :
    ∀ (m : Memory) (a : Addr), a < m.next → (m.placeVersions vs).2.cells a = m.cells a := by
  induction vs with
  | nil => intro m a _; rfl
  | cons v rest ih =>
    intro m a h
    exact (ih _ a (Nat.lt_of_lt_of_le h (m.place_next v.Schema))).trans
      (m.place_cells v.Schema a h)

theorem Memory.placeVersions_addr (vs : List CustomResourceDefinitionVersion) :
    ∀ (m : Memory) (r : VersionRef), r ∈ (m.placeVersions vs).1 → ∀ a, r.Schema = some a →
      m.next ≤ a ∧ a < (m.placeVersions vs).2.next := by
  induction vs with
  | nil => intro m r h; simp [Memory.placeVersions] at h
  | cons v rest ih =>
    intro m r h a ha
    simp only [Memory.placeVersions, List.mem_cons] at h
    rcases h with h | h
    · subst h
      have := m.place_addr v.Schema a ha
      have h2 := Memory.placeVersions_next rest (m.place v.Schema).2
      exact ⟨this.1, Nat.lt_of_lt_of_le this.2 h2⟩
    · have := ih _ r h a ha
      exact ⟨Nat.le_trans (m.place_next v.Schema) this.1, this.2⟩

theorem Memory.placeVersions_value (vs : List CustomResourceDefinitionVersion) :
    ∀ m : Memory,
      (m.placeVersions vs).1.map (VersionRef.value (m.placeVersions vs).2) = vs := by
  induction vs with
  | nil => intro m; rfl
  | cons v rest ih =>
    intro m
    simp only [Memory.placeVersions, List.map_cons]
    rw [ih]
    congr 1
    cases v with
    | mk name schema =>
      simp only [VersionRef.value]
      congr 1
      refine (Memory.load_congr (m.place schema).2 _ _ ?_).trans (m.place_load schema)
      intro a ha
      exact Memory.placeVersions_cells rest _ a (m.place_addr schema a ha).2

theorem Memory.placeDefinition_next (m : Memory) (e : CustomResourceDefinition) :
    m.next ≤ (m.placeDefinition e).2.next :=
  Nat.le_trans (m.place_next _) (Memory.placeVersions_next _ _)

theorem Memory.placeDefinition_cells (m : Memory) (e : CustomResourceDefinition) (a : Addr)
    (h : a < m.next) : (m.placeDefinition e).2.cells a = m.cells a :=
  (Memory.placeVersions_cells _ _ a (Nat.lt_of_lt_of_le h (m.place_next _))).trans
    (m.place_cells _ a h)

theorem Memory.placeDefinition_addr (m : Memory) (e : CustomResourceDefinition) (a : Addr)
    (h : a ∈ (m.placeDefinition e).1.addrs) :
    m.next ≤ a ∧ a < (m.placeDefinition e).2.next := by
  simp only [DefinitionRef.addrs, Memory.placeDefinition, List.mem_append, Option.mem_toList,
    Option.mem_def, List.mem_filterMap] at h
  rcases h with h | ⟨r, hr, ha⟩
  · have := m.place_addr _ a h
    exact ⟨this.1, Nat.lt_of_lt_of_le this.2 (Memory.placeVersions_next _ _)⟩
  · have := Memory.placeVersions_addr _ _ r hr a ha
    exact ⟨Nat.le_trans (m.place_next _) this.1, this.2⟩

theorem Memory.placeDefinition_value (m : Memory) (e : CustomResourceDefinition) :
    (m.placeDefinition e).1.value (m.placeDefinition e).2 = e := by
  cases e with
  | mk spec =>
    cases spec with
    | mk g n val vs =>
      simp only [DefinitionRef.value, Memory.placeDefinition]
      congr 2
      · refine (Memory.load_congr (m.place val).2 _ _ ?_).trans (m.place_load val)
        intro a ha
        exact Memory.placeVersions_cells vs _ a (m.place_addr val a ha).2
      · exact Memory.placeVersions_value vs _

theorem DefinitionRef.value_congr (c : DefinitionRef) (m m' : Memory)
    (h : ∀ a ∈ c.addrs, m'.cells a = m.cells a) : c.value m' = c.value m := by
  simp only [DefinitionRef.value]
  congr 2
  · refine Memory.load_congr m m' _ ?_
    intro a ha
    exact h a (by simp [DefinitionRef.addrs, ha])
  · refine List.map_congr_left ?_
    intro v hv
    simp only [VersionRef.value]
    congr 1
    refine Memory.load_congr m m' _ ?_
    intro a ha
    exact h a (by
      simp only [DefinitionRef.addrs, List.mem_append, List.mem_filterMap]
      exact Or.inr ⟨v, hv, ha⟩)

theorem DefinitionRef.DeepCopy_next (c : DefinitionRef) (m : Memory) :
    m.next ≤ (c.DeepCopy m).2.next :=
  m.placeDefinition_next _

theorem DefinitionRef.DeepCopy_cells (c : DefinitionRef) (m : Memory) (a : Addr)
    (h : a < m.next) : (c.DeepCopy m).2.cells a = m.cells a :=
  m.placeDefinition_cells _ a h

theorem DefinitionRef.DeepCopy_addr (c : DefinitionRef) (m : Memory) (a : Addr)
    (h : a ∈ (c.DeepCopy m).1.addrs) : m.next ≤ a ∧ a < (c.DeepCopy m).2.next :=
  m.placeDefinition_addr _ a h

theorem DefinitionRef.DeepCopy_value (c : DefinitionRef) (m : Memory) :
    (c.DeepCopy m).1.value (c.DeepCopy m).2 = c.value m :=
  m.placeDefinition_value _

theorem addMetaDataToSchemaAt_ok (m m' : Memory) (p : Option Addr)
    (h : addMetaDataToSchemaAt m p = .ok m') :
    m'.next = m.next ∧ ∃ a, p = some a ∧ ∀ b, b ≠ a → m'.cells b = m.cells b := by
  cases p with
  | none => simp [addMetaDataToSchemaAt] at h
  | some a =>
    simp only [addMetaDataToSchemaAt] at h
    split at h
    · cases h
    · cases h
      exact ⟨rfl, a, rfl, fun b hb => by simp [Memory.set, hb]⟩

theorem scanVersionsAt_memory (version : String) (m : Memory) (vs : List VersionRef) :
    (scanVersionsAt version m vs).2.next = m.next ∧
      ∀ b, (∀ v ∈ vs, v.Schema ≠ some b) → (scanVersionsAt version m vs).2.cells b = m.cells b := by
  induction vs with
  | nil => exact ⟨rfl, fun _ _ => rfl⟩
  | cons v rest ih =>
    simp only [scanVersionsAt]
    split
    · split
      · exact ⟨rfl, fun _ _ => rfl⟩
      · rename_i m' hm
        obtain ⟨hn, a, ha, hc⟩ := addMetaDataToSchemaAt_ok m m' _ hm
        refine ⟨hn, fun b hb => hc b ?_⟩
        intro hba
        exact hb v (List.mem_cons_self _ _) (by rw [ha, hba])
    · exact ⟨ih.1, fun b hb => ih.2 b (fun v hv => hb v (List.mem_cons_of_mem _ hv))⟩

theorem validationOf_memory (version : String) (m : Memory) (crd : DefinitionRef) :
    (validationOf version m crd).2.next = m.next ∧
      ∀ b, b ∉ crd.addrs → (validationOf version m crd).2.cells b = m.cells b := by
  simp only [validationOf]
  split
  · rename_i a hv
    split
    · exact ⟨rfl, fun _ _ => rfl⟩
    · rename_i m' hm
      obtain ⟨hn, a', ha, hc⟩ := addMetaDataToSchemaAt_ok m m' _ hm
      cases ha
      refine ⟨hn, fun b hb => hc b ?_⟩
      intro hba
      exact hb (by simp [DefinitionRef.addrs, hv, hba])
  · refine ⟨(scanVersionsAt_memory version m crd.Versions).1, fun b hb => ?_⟩
    refine (scanVersionsAt_memory version m crd.Versions).2 b ?_
    intro v hv hvb
    exact hb (by
      simp only [DefinitionRef.addrs, List.mem_append, List.mem_filterMap]
      exact Or.inr ⟨v, hv, hvb⟩)

theorem Process.GetCRDSchema_memory (st : Process) (gk : GroupKind) :
    st.memory.next ≤ (st.GetCRDSchema gk).2.next ∧
      ∀ a, a < st.memory.next → (st.GetCRDSchema gk).2.cells a = st.memory.cells a := by
  simp only [Process.GetCRDSchema]
  split
  · exact ⟨Nat.le_refl _, fun _ _ => rfl⟩
  · rename_i crd _
    exact ⟨crd.DeepCopy_next _, fun a h => crd.DeepCopy_cells _ a h⟩

theorem Process.GetCRDSchema_addr (st : Process) (gk : GroupKind) (c : DefinitionRef)
    (h : (st.GetCRDSchema gk).1 = some c) :
    ∀ a ∈ c.addrs, st.memory.next ≤ a ∧ a < (st.GetCRDSchema gk).2.next := by
  simp only [Process.GetCRDSchema] at h ⊢
  split at h
  · cases h
  · rename_i crd _
    cases h
    exact fun a ha => crd.DeepCopy_addr _ a ha

theorem Process.GetCRDSchemaValidation_memory (st : Process) (gvk : GroupVersionKind) :
    st.memory.next ≤ (st.GetCRDSchemaValidation gvk).2.next ∧
      ∀ a, a < st.memory.next →
        (st.GetCRDSchemaValidation gvk).2.cells a = st.memory.cells a := by
  simp only [Process.GetCRDSchemaValidation]
  split
  · exact st.GetCRDSchema_memory _
  · rename_i crd hc
    have hm := st.GetCRDSchema_memory gvk.GroupKind
    have ha := st.GetCRDSchema_addr gvk.GroupKind crd hc
    have hv := validationOf_memory gvk.Version (st.GetCRDSchema gvk.GroupKind).2 crd
    refine ⟨by rw [hv.1]; exact hm.1, fun a h => ?_⟩
    rw [hv.2 a (fun hmem => Nat.lt_irrefl _ (Nat.lt_of_lt_of_le h (ha a hmem).1))]
    exact hm.2 a h

theorem validationOf_addr (version : String) (m : Memory) (crd : DefinitionRef) (a : Addr)
    (h : (validationOf version m crd).1 = .ok (some a)) : a ∈ crd.addrs := by
  simp only [validationOf] at h
  split at h
  · rename_i b hv
    split at h
    · cases h
    · simp only [Except.ok.injEq, Option.some.injEq] at h
      subst h
      simp [DefinitionRef.addrs, hv]
  · have hscan : ∀ vs : List VersionRef, (scanVersionsAt version m vs).1 = .ok (some a) →
        ∃ v ∈ vs, v.Schema = some a := by
      intro vs
      induction vs with
      | nil => intro h0; simp [scanVersionsAt] at h0
      | cons v rest ih =>
        intro h0
        simp only [scanVersionsAt] at h0
        split at h0
        · split at h0
          · cases h0
          · simp only [Except.ok.injEq] at h0
            exact ⟨v, List.mem_cons_self _ _, h0⟩
        · obtain ⟨w, hw, hs⟩ := ih h0
          exact ⟨w, List.mem_cons_of_mem _ hw, hs⟩
    obtain ⟨v, hv, hs⟩ := hscan _ h
    simp only [DefinitionRef.addrs, List.mem_append, List.mem_filterMap]
    exact Or.inr ⟨v, hv, hs⟩

theorem Process.GetCRDSchemaValidation_addr (st : Process) (gvk : GroupVersionKind) (a : Addr)
    (h : (st.GetCRDSchemaValidation gvk).1 = .ok (some a)) :
    st.memory.next ≤ a ∧ a < (st.GetCRDSchemaValidation gvk).2.next := by
  cases hc : (st.GetCRDSchema gvk.GroupKind).1 with
  | none => simp [Process.GetCRDSchemaValidation, hc] at h
  | some crd =>
    simp only [Process.GetCRDSchemaValidation, hc] at h ⊢
    have ha := st.GetCRDSchema_addr gvk.GroupKind crd hc a
      (validationOf_addr gvk.Version _ crd a h)
    rw [(validationOf_memory gvk.Version (st.GetCRDSchema gvk.GroupKind).2 crd).1]
    exact ha

theorem Process.copyAll_memory (st : Process) (order : List GroupKind) :
    ∀ acc : Copies,
      acc.memory.next ≤ (st.copyAll acc order).memory.next ∧
        (∀ a, a < acc.memory.next → (st.copyAll acc order).memory.cells a = acc.memory.cells a) ∧
        ∀ a ∈ (st.copyAll acc order).reach,
          a ∈ acc.reach ∨ (acc.memory.next ≤ a ∧ a < (st.copyAll acc order).memory.next) := by
  induction order with
  | nil => intro acc; exact ⟨Nat.le_refl _, fun _ _ => rfl, fun a ha => Or.inl ha⟩
  | cons gk rest ih =>
    intro acc
    simp only [Process.copyAll]
    split
    · exact ih acc
    · rename_i v _
      have h := ih { out := acc.out.insert gk (v.DeepCopy acc.memory).1,
                     reach := acc.reach ++ (v.DeepCopy acc.memory).1.addrs,
                     memory := (v.DeepCopy acc.memory).2 }
      refine ⟨Nat.le_trans (v.DeepCopy_next acc.memory) h.1, fun a ha =>
        (h.2.1 a (Nat.lt_of_lt_of_le ha (v.DeepCopy_next acc.memory))).trans
          (v.DeepCopy_cells acc.memory a ha), fun a ha => ?_⟩
      rcases h.2.2 a ha with h1 | h1
      · rcases List.mem_append.mp h1 with h2 | h2
        · exact Or.inl h2
        · have := v.DeepCopy_addr acc.memory a h2
          exact Or.inr ⟨this.1, Nat.lt_of_lt_of_le this.2 h.1⟩
      · exact Or.inr ⟨Nat.le_trans (v.DeepCopy_next acc.memory) h1.1, h1.2⟩

theorem Process.GetAll_memory (st : Process) (order : List GroupKind) :
    st.memory.next ≤ (st.GetAll order).memory.next ∧
      (∀ a, a < st.memory.next → (st.GetAll order).memory.cells a = st.memory.cells a) ∧
      ∀ a ∈ (st.GetAll order).reach,
        st.memory.next ≤ a ∧ a < (st.GetAll order).memory.next := by
  have h := st.copyAll_memory order { out := ∅, reach := [], memory := st.memory }
  refine ⟨h.1, h.2.1, fun a ha => ?_⟩
  rcases h.2.2 a ha with h1 | h1
  · cases h1
  · exact h1

theorem Process.step_keeps (st : Process) (s : MemoryStep) : st.Keeps (st.step s) := by
  cases s with
  | GetCRDSchema gk =>
    refine ⟨rfl, (st.GetCRDSchema_memory gk).1, fun a h _ => (st.GetCRDSchema_memory gk).2 a h, ?_⟩
    intro a ha
    simp only [Process.step, List.mem_append] at ha
    refine ha.imp id (fun h => ?_)
    cases hc : (st.GetCRDSchema gk).1 with
    | none => simp [hc, reachOf] at h
    | some c =>
      simp only [hc, reachOf] at h
      exact st.GetCRDSchema_addr gk c hc a h
  | GetCRDSchemaValidation gvk =>
    refine ⟨rfl, (st.GetCRDSchemaValidation_memory gvk).1,
      fun a h _ => (st.GetCRDSchemaValidation_memory gvk).2 a h, ?_⟩
    intro a ha
    simp only [Process.step, List.mem_append] at ha
    refine ha.imp id (fun h => ?_)
    cases hc : (st.GetCRDSchemaValidation gvk).1 with
    | error e => simp [hc, reachOfValidation] at h
    | ok p =>
      cases p with
      | none => simp [hc, reachOfValidation] at h
      | some b =>
        simp only [hc, reachOfValidation, List.mem_singleton] at h
        subst h
        exact st.GetCRDSchemaValidation_addr gvk a hc
  | GetAll order =>
    refine ⟨rfl, (st.GetAll_memory order).1, fun a h _ => (st.GetAll_memory order).2.1 a h, ?_⟩
    intro a ha
    simp only [Process.step, List.mem_append] at ha
    exact ha.imp id ((st.GetAll_memory order).2.2 a)
  | write b v =>
    simp only [Process.step]
    split
    · rename_i hb
      refine ⟨rfl, Nat.le_refl _, ?_, fun a ha => Or.inl ha⟩
      intro a _ hna
      have : a ≠ b := fun h => hna (h ▸ hb)
      simp [Memory.set, this]
    · exact ⟨rfl, Nat.le_refl _, fun _ _ _ => rfl, fun a ha => Or.inl ha⟩

theorem Process.Keeps.sound {st st' : Process} (k : st.Keeps st') (h : st.Sound) : st'.Sound := by
  refine ⟨?_, ?_⟩
  · intro gk c hc a ha
    rw [k.crds] at hc
    have := h.stored gk c hc a ha
    refine ⟨Nat.lt_of_lt_of_le this.1 k.next, fun hmem => ?_⟩
    rcases k.held a hmem with h1 | h1
    · exact this.2 h1
    · exact Nat.lt_irrefl _ (Nat.lt_of_lt_of_le this.1 h1.1)
  · intro a ha
    rcases k.held a ha with h1 | h1
    · exact Nat.lt_of_lt_of_le (h.handed a h1) k.next
    · exact h1.2

theorem Process.Keeps.entry {st st' : Process} (k : st.Keeps st') (h : st.Sound)
    (gk : GroupKind) : st'.entry gk = st.entry gk := by
  simp only [Process.entry, k.crds]
  cases hc : st.crds.lookup gk with
  | none => rfl
  | some c =>
    simp only
    congr 1
    refine c.value_congr _ _ ?_
    intro a ha
    have := h.stored gk c hc a ha
    exact k.cells a this.1 this.2

theorem Process.run_sound (steps : List MemoryStep) :
    ∀ st : Process, st.Sound → (st.run steps).Sound ∧ ∀ gk, (st.run steps).entry gk = st.entry gk := by
  induction steps with
  | nil => intro st h; exact ⟨h, fun _ => rfl⟩
  | cons s rest ih =>
    intro st h
    have k := st.step_keeps s
    have h1 := ih (st.step s) (k.sound h)
    exact ⟨h1.1, fun gk => (h1.2 gk).trans (k.entry h gk)⟩

theorem Process.readCRDSchema_eq (st : Process) (gk : GroupKind) :
    st.readCRDSchema gk = st.entry gk := by
  simp only [Process.readCRDSchema, Process.entry, Process.GetCRDSchema]
  cases st.crds.lookup gk with
  | none => rfl
  | some c => simp only; rw [c.DeepCopy_value]

theorem NewProcess_sound : NewProcess.Sound :=
  ⟨fun gk c h => by simp [NewProcess] at h, fun a h => by simp [NewProcess] at h⟩

theorem Process.registerCRD_sound (d : Deps) (st : Process) (crd : V1CustomResourceDefinition)
    (h : st.Sound) : (Process.registerCRD d st crd).1.Sound := by
  simp only [Process.registerCRD]
  split
  · exact h
  · rename_i e _
    refine ⟨?_, fun a ha => Nat.lt_of_lt_of_le (h.handed a ha) (st.memory.placeDefinition_next e)⟩
    intro gk c hc a ha
    simp only [Finmap.lookup_insert_of_ne, Finmap.lookup_insert] at hc
    by_cases hgk : gk = { Group := crd.Spec.Group, Kind := crd.Spec.Names.Kind }
    · subst hgk
      rw [Finmap.lookup_insert] at hc
      cases hc
      have := st.memory.placeDefinition_addr e a ha
      exact ⟨this.2, fun hmem =>
        Nat.lt_irrefl _ (Nat.lt_of_lt_of_le (h.handed a hmem) this.1)⟩
    · rw [Finmap.lookup_insert_of_ne _ hgk] at hc
      have := h.stored gk c hc a ha
      exact ⟨Nat.lt_of_lt_of_le this.1 (st.memory.placeDefinition_next e), this.2⟩

theorem Process.registerCRD_entry (d : Deps) (st : Process) (crd : V1CustomResourceDefinition)
    (e : CustomResourceDefinition) (h : st.Sound) (hc : d.Convert crd = .ok e)
    (gk : GroupKind) :
    (Process.registerCRD d st crd).1.entry gk =
      if gk = { Group := crd.Spec.Group, Kind := crd.Spec.Names.Kind } then some e
      else st.entry gk := by
  simp only [Process.registerCRD, hc, Process.entry]
  by_cases hgk : gk = { Group := crd.Spec.Group, Kind := crd.Spec.Names.Kind }
  · subst hgk
    rw [Finmap.lookup_insert, if_pos rfl]
    simp only
    rw [st.memory.placeDefinition_value]
  · rw [Finmap.lookup_insert_of_ne _ hgk, if_neg hgk]
    cases hl : st.crds.lookup gk with
    | none => rfl
    | some c =>
      simp only
      congr 1
      refine c.value_congr _ _ ?_
      intro a ha
      exact st.memory.placeDefinition_cells e a (h.stored gk c hl a ha).1

theorem Process.registerAll_sound (d : Deps) (crds : List V1CustomResourceDefinition) :
    ∀ st : Process, st.Sound → (Process.registerAll d st crds).Sound := by
  induction crds with
  | nil => intro st h; exact h
  | cons c rest ih => intro st h; exact ih _ (Process.registerCRD_sound d st c h)

theorem scanVersionsAt_read (version : String) (vs : List VersionRef) (m : Memory) :
    (match (scanVersionsAt version m vs).1 with
      | .error e => .error e
      | .ok p => .ok ((scanVersionsAt version m vs).2.load p)) =
      SchemaStore.scanVersions version (vs.map (VersionRef.value m)) := by
  induction vs with
  | nil => rfl
  | cons v rest ih =>
    simp only [scanVersionsAt, List.map_cons, SchemaStore.scanVersions, VersionRef.value]
    by_cases hv : v.Name = version
    · simp only [hv, if_true]
      cases hs : v.Schema with
      | none => rfl
      | some a =>
        simp only [addMetaDataToSchemaAt, Memory.load]
        cases addMetaDataToSchema (some (m.cells a)) with
        | error e => rfl
        | ok r => simp [Memory.load, Memory.set]
    · simp only [hv, if_false]
      exact ih

theorem validationOf_read (version : String) (m : Memory) (crd : DefinitionRef) :
    (match (validationOf version m crd).1 with
      | .error e => Except.error e
      | .ok p => Except.ok ((validationOf version m crd).2.load p)) =
      (match (crd.value m).Spec.Validation with
        | some validation =>
          match addMetaDataToSchema (some validation) with
          | .error e => Except.error e
          | .ok schema => Except.ok (some schema)
        | none => SchemaStore.scanVersions version (crd.value m).Spec.Versions) := by
  simp only [validationOf, DefinitionRef.value]
  cases hv : crd.Validation with
  | none => exact scanVersionsAt_read version crd.Versions m
  | some a =>
    simp only [addMetaDataToSchemaAt, Memory.load]
    cases addMetaDataToSchema (some (m.cells a)) with
    | error e => rfl
    | ok r => simp [Memory.load, Memory.set]

/-- On trees, the methods with pointers return what the methods of
`SchemaStore` return: `GetCRDSchemaValidation`. -/
theorem Process.readCRDSchemaValidation_eq (st : Process) (s : SchemaStore)
    (h : ∀ gk, st.entry gk = s.GetCRDSchema gk) (gvk : GroupVersionKind) :
    st.readCRDSchemaValidation gvk = s.GetCRDSchemaValidation gvk := by
  have h1 := h gvk.GroupKind
  rw [← st.readCRDSchema_eq] at h1
  simp only [Process.readCRDSchema] at h1
  simp only [Process.readCRDSchemaValidation, Process.GetCRDSchemaValidation,
    SchemaStore.GetCRDSchemaValidation, ← h1]
  cases hc : (st.GetCRDSchema gvk.GroupKind).1 with
  | none => rfl
  | some c => exact validationOf_read gvk.Version _ c

/-- On trees, the methods with pointers leave what the methods of
`SchemaStore` leave: `registerCRD`. -/
theorem Process.registerCRD_eq (d : Deps) (st : Process) (s : SchemaStore)
    (crd : V1CustomResourceDefinition) (hs : st.Sound)
    (h : ∀ gk, st.entry gk = s.GetCRDSchema gk) :
    (Process.registerCRD d st crd).2 = (SchemaStore.registerCRD d s crd).2 ∧
      ∀ gk, (Process.registerCRD d st crd).1.entry gk =
        (SchemaStore.registerCRD d s crd).1.GetCRDSchema gk := by
  cases hc : d.Convert crd with
  | error err =>
    simp only [Process.registerCRD, SchemaStore.registerCRD, hc, true_and]
    exact h
  | ok e =>
    refine ⟨by simp only [Process.registerCRD, SchemaStore.registerCRD, hc], fun gk => ?_⟩
    rw [Process.registerCRD_entry d st crd e hs hc gk, registerCRD_ok d s crd e hc,
      GetCRDSchema_eq_lookup]
    by_cases hgk : gk = { Group := crd.Spec.Group, Kind := crd.Spec.Names.Kind }
    · subst hgk
      rw [if_pos rfl, Finmap.lookup_insert]
    · rw [if_neg hgk, Finmap.lookup_insert_of_ne _ hgk, h gk, GetCRDSchema_eq_lookup]

theorem Process.registerAll_eq (d : Deps) (crds : List V1CustomResourceDefinition) :
    ∀ (st : Process) (s : SchemaStore), st.Sound → (∀ gk, st.entry gk = s.GetCRDSchema gk) →
      ∀ gk, (Process.registerAll d st crds).entry gk =
        (crds.foldl (fun s crd => (SchemaStore.registerCRD d s crd).1) s).GetCRDSchema gk := by
  induction crds with
  | nil => intro st s _ h; exact h
  | cons c rest ih =>
    intro st s hs h
    exact ih _ _ (Process.registerCRD_sound d st c hs) (Process.registerCRD_eq d st s c hs h).2

theorem NewProcess_entry (gk : GroupKind) :
    NewProcess.entry gk = NewSchemaStore.GetCRDSchema gk := rfl

/-- C5: read operations never change the store. The store holds the
definitions registered one after the other, the last of them converted to the
entry `e`; its pointers and those of the values it hands out lead into one
memory. Whatever sequence of `GetCRDSchema`, `GetCRDSchemaValidation` (which
augments the object it returns a pointer to) and `GetAll` calls is made, and
whatever is written through the pointers those calls returned, a subsequent
`GetCRDSchema` of the group and kind of the last definition returns exactly
`e`, and `GetCRDSchema` of any group and kind returns what it returned before
all these steps: the entry the registrations left, as `SchemaStore` has it. -/
theorem reads_keep_registered_entries (d : Deps) (pre : List V1CustomResourceDefinition)
    (crd : V1CustomResourceDefinition) (e : CustomResourceDefinition)
    (steps : List MemoryStep) (h : d.Convert crd = .ok e) :
    ((Process.registerCRD d (Process.registerAll d NewProcess pre) crd).1.run
        steps).readCRDSchema { Group := crd.Spec.Group, Kind := crd.Spec.Names.Kind } =
      some e ∧
    (∀ gk, ((Process.registerCRD d (Process.registerAll d NewProcess pre) crd).1.run
        steps).readCRDSchema gk =
      (Process.registerCRD d (Process.registerAll d NewProcess pre) crd).1.readCRDSchema gk) ∧
    ∀ gk, ((Process.registerCRD d (Process.registerAll d NewProcess pre) crd).1.run
        steps).readCRDSchema gk =
      (SchemaStore.registerCRD d
        (pre.foldl (fun s c => (SchemaStore.registerCRD d s c).1) NewSchemaStore)
        crd).1.GetCRDSchema gk := by
  have hs0 := Process.registerAll_sound d pre NewProcess NewProcess_sound
  have hs := Process.registerCRD_sound d _ crd hs0
  have hr := Process.run_sound steps _ hs
  refine ⟨?_, fun gk => ?_, fun gk => ?_⟩
  · rw [Process.readCRDSchema_eq, hr.2, Process.registerCRD_entry d _ crd e hs0 h, if_pos rfl]
  · rw [Process.readCRDSchema_eq, Process.readCRDSchema_eq, hr.2]
  · rw [Process.readCRDSchema_eq, hr.2]
    exact (Process.registerCRD_eq d _ _ crd hs0
      (Process.registerAll_eq d pre NewProcess NewSchemaStore NewProcess_sound
        NewProcess_entry)).2 gk

/-- C5, at the store holding `Gadget` and `Widget`: the validation schema of
`Widget` is read, all entries are read, and the objects within reach are
overwritten, as is tried with the object of the store; `GetCRDSchema` then
still returns the entry with the schema as declared, in which `metadata`
declares no `name`. -/
theorem reads_keep_registered_entries_witness :
    (specDeps hoistSingleVersion).Convert widgetV1 = .ok widgetEntry ∧
    (((Process.registerCRD (specDeps hoistSingleVersion)
          (Process.registerAll (specDeps hoistSingleVersion) NewProcess [gadgetV1])
          widgetV1).1.run widgetReads).readCRDSchema
        { Group := widgetV1.Spec.Group, Kind := widgetV1.Spec.Names.Kind } =
      some widgetEntry ∧
    (∀ gk, ((Process.registerCRD (specDeps hoistSingleVersion)
          (Process.registerAll (specDeps hoistSingleVersion) NewProcess [gadgetV1])
          widgetV1).1.run widgetReads).readCRDSchema gk =
      (Process.registerCRD (specDeps hoistSingleVersion)
          (Process.registerAll (specDeps hoistSingleVersion) NewProcess [gadgetV1])
          widgetV1).1.readCRDSchema gk) ∧
    ∀ gk, ((Process.registerCRD (specDeps hoistSingleVersion)
          (Process.registerAll (specDeps hoistSingleVersion) NewProcess [gadgetV1])
          widgetV1).1.run widgetReads).readCRDSchema gk =
      (SchemaStore.registerCRD (specDeps hoistSingleVersion)
        ([gadgetV1].foldl
          (fun s c => (SchemaStore.registerCRD (specDeps hoistSingleVersion) s c).1)
          NewSchemaStore)
        widgetV1).1.GetCRDSchema gk) ∧
    (widgetEntry.Spec.Validation.bind (fun v => v.OpenAPIV3Schema)).bind
      (fun root => metaField root "name") = none :=
  ⟨rfl, reads_keep_registered_entries (specDeps hoistSingleVersion) [gadgetV1] widgetV1
      widgetEntry widgetReads rfl, rfl⟩

/-- Were the call of `DeepCopy` in `GetCRDSchema` left out, the augmentation
would reach the store, and so would the caller: at the store holding `Widget`,
whose stored schema does not declare `metadata.name`, after one validation
lookup through the store's own pointers the stored schema declares it, the
pointer handed out is the store's, and a write through it replaces the stored
schema. After the lookup as it is, the stored schema is as before, the pointer
handed out leads to a new object, and a write through it leaves the stored
schema alone. -/
theorem shared_pointers_reach_store :
    ((widgetProcess.entry { Group := "example.org", Kind := "Widget" }).bind
        (fun c => (c.Spec.Validation.bind (fun v => v.OpenAPIV3Schema)).bind
          (fun root => metaField root "name"))).isSome = false ∧
    (((widgetProcess.stepShared
          { Group := "example.org", Version := "v1", Kind := "Widget" }).entry
          { Group := "example.org", Kind := "Widget" }).bind
        (fun c => (c.Spec.Validation.bind (fun v => v.OpenAPIV3Schema)).bind
          (fun root => metaField root "name"))).isSome = true ∧
    (widgetProcess.stepShared
        { Group := "example.org", Version := "v1", Kind := "Widget" }).held = [0] ∧
    (((widgetProcess.stepShared
          { Group := "example.org", Version := "v1", Kind := "Widget" }).step
          (MemoryStep.write 0 { OpenAPIV3Schema := none })).entry
          { Group := "example.org", Kind := "Widget" }).bind
        (fun c => c.Spec.Validation.bind (fun v => v.OpenAPIV3Schema)) = none ∧
    (((widgetProcess.step (MemoryStep.GetCRDSchemaValidation
          { Group := "example.org", Version := "v1", Kind := "Widget" })).entry
          { Group := "example.org", Kind := "Widget" }).bind
        (fun c => (c.Spec.Validation.bind (fun v => v.OpenAPIV3Schema)).bind
          (fun root => metaField root "name"))).isSome = false ∧
    (widgetProcess.step (MemoryStep.GetCRDSchemaValidation
        { Group := "example.org", Version := "v1", Kind := "Widget" })).held = [1] ∧
    ((widgetProcess.step (MemoryStep.GetCRDSchemaValidation
          { Group := "example.org", Version := "v1", Kind := "Widget" })).step
          (MemoryStep.write 1 { OpenAPIV3Schema := none })).entry
          { Group := "example.org", Kind := "Widget" } = some widgetEntry :=
  ⟨rfl, rfl, rfl, rfl, rfl, rfl, rfl⟩

/-- The caller `widgetReads` at work: its write to the object of the store is
refused, the object stays the declared schema; its write to the object the
validation lookup made goes through. -/
theorem widgetReads_writes :
    ((Process.registerCRD (specDeps hoistSingleVersion)
        (Process.registerAll (specDeps hoistSingleVersion) NewProcess [gadgetV1])
        widgetV1).1.run widgetReads).held = [2, 3, 4] ∧
    (((Process.registerCRD (specDeps hoistSingleVersion)
        (Process.registerAll (specDeps hoistSingleVersion) NewProcess [gadgetV1])
        widgetV1).1.run widgetReads).memory.cells 1).OpenAPIV3Schema.isSome = true ∧
    (((Process.registerCRD (specDeps hoistSingleVersion)
        (Process.registerAll (specDeps hoistSingleVersion) NewProcess [gadgetV1])
        widgetV1).1.run widgetReads).memory.cells 2).OpenAPIV3Schema.isSome = false :=
  ⟨rfl, rfl, rfl⟩

/-! ## Registering a package -/

theorem registerEntries_single (d : Deps) (s : SchemaStore) (e : PackageEntry) :
    SchemaStore.registerEntries d s [e] = SchemaStore.registerEntry d s e := by
  simp only [SchemaStore.registerEntries]
  rcases SchemaStore.registerEntry d s e with ⟨s1, _ | err⟩ <;> rfl

theorem registerEntries_stop (d : Deps) (s s1 : SchemaStore) (e : PackageEntry)
    (rest : List PackageEntry) (err : String)
    (h : SchemaStore.registerEntry d s e = (s1, some err)) :
    SchemaStore.registerEntries d s (e :: rest) = (s1, some err) := by
  simp only [SchemaStore.registerEntries, h]

/-- The entry of an XRD whose composite derivation fails. -/
theorem registerEntry_composite_fails (d : Deps) (s : SchemaStore) (e : PackageEntry)
    (xrd : CompositeResourceDefinition) (err : String)
    (hcrd : e.IsCRD = false) (hxrd : e.IsXRD = true) (has : e.AsXRD = .ok xrd)
    (hcomp : d.ForCompositeResource xrd = .error err) :
    SchemaStore.registerEntry d s e = (s, some (Wrap err errBuildCompositeCRD)) := by
  simp [SchemaStore.registerEntry, hcrd, hxrd, has, hcomp]

/-- The entry of an XRD without claim names. -/
theorem registerEntry_no_claim (d : Deps) (s : SchemaStore) (e : PackageEntry)
    (xrd : CompositeResourceDefinition) (comp : V1CustomResourceDefinition)
    (c : CustomResourceDefinition)
    (hcrd : e.IsCRD = false) (hxrd : e.IsXRD = true) (has : e.AsXRD = .ok xrd)
    (hcn : xrd.Spec.ClaimNames = none)
    (hcomp : d.ForCompositeResource xrd = .ok comp) (h1 : d.Convert comp = .ok c) :
    SchemaStore.registerEntry d s e =
      ({ crds := s.crds.insert { Group := comp.Spec.Group, Kind := comp.Spec.Names.Kind } c },
        none) := by
  simp [SchemaStore.registerEntry, hcrd, hxrd, has, hcomp, registerCRD_ok d s comp c h1, hcn]

/-- The entry of an XRD with claim names whose claim derivation fails. -/
theorem registerEntry_claim_fails (d : Deps) (s : SchemaStore) (e : PackageEntry)
    (xrd : CompositeResourceDefinition) (comp : V1CustomResourceDefinition)
    (c : CustomResourceDefinition) (cn : CustomResourceDefinitionNames) (err : String)
    (hcrd : e.IsCRD = false) (hxrd : e.IsXRD = true) (has : e.AsXRD = .ok xrd)
    (hcn : xrd.Spec.ClaimNames = some cn)
    (hcomp : d.ForCompositeResource xrd = .ok comp) (h1 : d.Convert comp = .ok c)
    (hclaim : d.ForCompositeResourceClaim xrd = .error err) :
    SchemaStore.registerEntry d s e =
      ({ crds := s.crds.insert { Group := comp.Spec.Group, Kind := comp.Spec.Names.Kind } c },
        some (Wrap err errBuildClaimCRD)) := by
  simp [SchemaStore.registerEntry, hcrd, hxrd, has, hcomp, registerCRD_ok d s comp c h1, hcn,
    hclaim]

/-- The entry of an XRD with claim names, both derivations and conversions succeeding. -/
theorem registerEntry_claim (d : Deps) (s : SchemaStore) (e : PackageEntry)
    (xrd : CompositeResourceDefinition) (comp claim : V1CustomResourceDefinition)
    (c1 c2 : CustomResourceDefinition) (cn : CustomResourceDefinitionNames)
    (hcrd : e.IsCRD = false) (hxrd : e.IsXRD = true) (has : e.AsXRD = .ok xrd)
    (hcn : xrd.Spec.ClaimNames = some cn)
    (hcomp : d.ForCompositeResource xrd = .ok comp) (h1 : d.Convert comp = .ok c1)
    (hclaim : d.ForCompositeResourceClaim xrd = .ok claim) (h2 : d.Convert claim = .ok c2) :
    SchemaStore.registerEntry d s e =
      ({ crds := (s.crds.insert { Group := comp.Spec.Group, Kind := comp.Spec.Names.Kind } c1).insert
          { Group := claim.Spec.Group, Kind := claim.Spec.Names.Kind } c2 }, none) := by
  simp [SchemaStore.registerEntry, hcrd, hxrd, has, hcomp, registerCRD_ok d s comp c1 h1, hcn,
    hclaim, registerCRD_ok d _ claim c2 h2]

/-- C6: for every XRD with claim names, the claim kind and the composite kind
being two kinds, when both derivations (as the specification describes them)
and both conversions succeed, `RegisterPackage` on the package of that XRD,
from a new store, succeeds and leaves exactly two entries, one under the
composite kind and one under the claim kind; the two carry the same
unversioned validation and the same versions with the same schemas, and the
same group: they differ in kind only. -/
theorem RegisterPackage_claim_two_entries
    (versions : List CustomResourceDefinitionVersion →
      Except String (Option CustomResourceValidation × List CustomResourceDefinitionVersion))
    (e : PackageEntry) (xrd : CompositeResourceDefinition)
    (cn : CustomResourceDefinitionNames) (comp claim : V1CustomResourceDefinition)
    (c1 c2 : CustomResourceDefinition)
    (hcrd : e.IsCRD = false) (hxrd : e.IsXRD = true) (has : e.AsXRD = .ok xrd)
    (hcn : xrd.Spec.ClaimNames = some cn) (hkind : cn.Kind ≠ xrd.Spec.Names.Kind)
    (hcomp : ForCompositeResource xrd = .ok comp)
    (hclaim : ForCompositeResourceClaim xrd = .ok claim)
    (h1 : (specDeps versions).Convert comp = .ok c1)
    (h2 : (specDeps versions).Convert claim = .ok c2) :
    (SchemaStore.RegisterPackage (specDeps versions) NewSchemaStore { Entries := [e] }).2 = none ∧
    (SchemaStore.RegisterPackage (specDeps versions) NewSchemaStore
      { Entries := [e] }).1.crds.keys.card = 2 ∧
    (SchemaStore.RegisterPackage (specDeps versions) NewSchemaStore
      { Entries := [e] }).1.GetCRDSchema
        { Group := xrd.Spec.Group, Kind := xrd.Spec.Names.Kind } = some c1 ∧
    (SchemaStore.RegisterPackage (specDeps versions) NewSchemaStore
      { Entries := [e] }).1.GetCRDSchema { Group := xrd.Spec.Group, Kind := cn.Kind } = some c2 ∧
    c1.Spec.Validation = c2.Spec.Validation ∧ c1.Spec.Versions = c2.Spec.Versions ∧
    c1.Spec.Group = c2.Spec.Group ∧
    c1.Spec.Names.Kind = xrd.Spec.Names.Kind ∧ c2.Spec.Names.Kind = cn.Kind := by
  have hreg := registerEntry_claim (specDeps versions) NewSchemaStore e xrd comp claim c1 c2 cn
    hcrd hxrd has hcn hcomp h1 hclaim h2
  have hcompEq : comp =
      { Spec := { Group := xrd.Spec.Group, Names := xrd.Spec.Names,
                  Versions := xrd.Spec.Versions } } := by
    unfold ForCompositeResource at hcomp
    split at hcomp
    · exact (Except.ok.inj hcomp).symm
    · cases hcomp
  have hclaimEq : claim =
      { Spec := { Group := xrd.Spec.Group, Names := cn,
                  Versions := xrd.Spec.Versions } } := by
    unfold ForCompositeResourceClaim at hclaim
    rw [hcn] at hclaim
    simp only at hclaim
    split at hclaim
    · exact (Except.ok.inj hclaim).symm
    · cases hclaim
  subst hcompEq hclaimEq
  simp only [specDeps, convertWith] at h1 h2
  cases hv : versions xrd.Spec.Versions with
  | error err => simp [hv] at h1
  | ok r =>
    obtain ⟨validation, vs⟩ := r
    simp only [hv, Except.ok.injEq] at h1 h2
    subst h1 h2
    have hne : (GroupKind.mk xrd.Spec.Group cn.Kind) ≠
        (GroupKind.mk xrd.Spec.Group xrd.Spec.Names.Kind) := by
      intro h
      exact hkind (congrArg GroupKind.Kind h)
    have hR : SchemaStore.RegisterPackage (specDeps versions) NewSchemaStore { Entries := [e] } =
        SchemaStore.registerEntry (specDeps versions) NewSchemaStore e :=
      registerEntries_single _ _ _
    rw [hR, hreg]
    dsimp only [NewSchemaStore]
    refine ⟨rfl, ?_, ?_, ?_, rfl, rfl, rfl, rfl, rfl⟩
    · rw [keys_insert, keys_insert, Finmap.keys_empty]
      rw [Finset.card_insert_of_not_mem (by simpa using hne)]
      rfl
    · rw [GetCRDSchema_eq_lookup, Finmap.lookup_insert_of_ne _ (Ne.symm hne)]
      exact Finmap.lookup_insert _
    · rw [GetCRDSchema_eq_lookup]
      exact Finmap.lookup_insert _

/-- C6, at the XRD of `Widget` with claim kind `WidgetClaim`: two entries,
with the same versions and schemas. -/
theorem RegisterPackage_claim_two_entries_witness :
    (SchemaStore.RegisterPackage (specDeps keepVersions) NewSchemaStore
      { Entries := [xrdEntry widgetXRD] }).2 = none ∧
    (SchemaStore.RegisterPackage (specDeps keepVersions) NewSchemaStore
      { Entries := [xrdEntry widgetXRD] }).1.crds.keys.card = 2 ∧
    (SchemaStore.RegisterPackage (specDeps keepVersions) NewSchemaStore
      { Entries := [xrdEntry widgetXRD] }).1.GetCRDSchema
        { Group := widgetXRD.Spec.Group, Kind := widgetXRD.Spec.Names.Kind } =
          some widgetKeptEntry ∧
    (SchemaStore.RegisterPackage (specDeps keepVersions) NewSchemaStore
      { Entries := [xrdEntry widgetXRD] }).1.GetCRDSchema
        { Group := widgetXRD.Spec.Group, Kind := "WidgetClaim" } = some widgetClaimEntry ∧
    widgetKeptEntry.Spec.Validation = widgetClaimEntry.Spec.Validation ∧
    widgetKeptEntry.Spec.Versions = widgetClaimEntry.Spec.Versions ∧
    widgetKeptEntry.Spec.Group = widgetClaimEntry.Spec.Group ∧
    widgetKeptEntry.Spec.Names.Kind = widgetXRD.Spec.Names.Kind ∧
    widgetClaimEntry.Spec.Names.Kind = "WidgetClaim" :=
  RegisterPackage_claim_two_entries keepVersions (xrdEntry widgetXRD) widgetXRD
    { Kind := "WidgetClaim" } _ _ widgetKeptEntry widgetClaimEntry rfl rfl rfl rfl (by decide)
    rfl rfl rfl rfl

/-- C7: for every XRD without claim names whose composite derivation and
conversion succeed, `RegisterPackage` on the package of that XRD, from a new
store, succeeds and leaves exactly one entry, the converted composite
definition under its group and kind; and the outcome is the same whatever the
claim derivation would return, failure included: it is not called. -/
theorem RegisterPackage_no_claim_one_entry (d : Deps) (e : PackageEntry)
    (xrd : CompositeResourceDefinition) (comp : V1CustomResourceDefinition)
    (c : CustomResourceDefinition)
    (hcrd : e.IsCRD = false) (hxrd : e.IsXRD = true) (has : e.AsXRD = .ok xrd)
    (hcn : xrd.Spec.ClaimNames = none)
    (hcomp : d.ForCompositeResource xrd = .ok comp) (h1 : d.Convert comp = .ok c) :
    (SchemaStore.RegisterPackage d NewSchemaStore { Entries := [e] }).2 = none ∧
    (SchemaStore.RegisterPackage d NewSchemaStore { Entries := [e] }).1.crds.keys.card = 1 ∧
    (SchemaStore.RegisterPackage d NewSchemaStore { Entries := [e] }).1.GetCRDSchema
      { Group := comp.Spec.Group, Kind := comp.Spec.Names.Kind } = some c ∧
    ∀ claimDerivation : CompositeResourceDefinition → Except String V1CustomResourceDefinition,
      SchemaStore.RegisterPackage
        { Convert := d.Convert, ForCompositeResource := d.ForCompositeResource,
          ForCompositeResourceClaim := claimDerivation }
        NewSchemaStore { Entries := [e] } =
      SchemaStore.RegisterPackage d NewSchemaStore { Entries := [e] } := by
  have hR : ∀ d' : Deps, SchemaStore.RegisterPackage d' NewSchemaStore { Entries := [e] } =
      SchemaStore.registerEntry d' NewSchemaStore e :=
    fun d' => registerEntries_single _ _ _
  have hclaimFree : ∀ claimDerivation :
      CompositeResourceDefinition → Except String V1CustomResourceDefinition,
      SchemaStore.RegisterPackage
        { Convert := d.Convert, ForCompositeResource := d.ForCompositeResource,
          ForCompositeResourceClaim := claimDerivation }
        NewSchemaStore { Entries := [e] } =
      SchemaStore.RegisterPackage d NewSchemaStore { Entries := [e] } := by
    intro claimDerivation
    rw [hR, hR]
    exact (registerEntry_no_claim
      { Convert := d.Convert, ForCompositeResource := d.ForCompositeResource,
        ForCompositeResourceClaim := claimDerivation }
      NewSchemaStore e xrd comp c hcrd hxrd has hcn hcomp h1).trans
      (registerEntry_no_claim d NewSchemaStore e xrd comp c hcrd hxrd has hcn hcomp h1).symm
  have hreg := registerEntry_no_claim d NewSchemaStore e xrd comp c hcrd hxrd has hcn hcomp h1
  refine ⟨?_, ?_, ?_, hclaimFree⟩
  · rw [hR d, hreg]
  · rw [hR d, hreg]
    dsimp only [NewSchemaStore]
    rw [keys_insert, Finmap.keys_empty]
    rfl
  · rw [hR d, hreg, GetCRDSchema_eq_lookup]
    exact Finmap.lookup_insert _

/-- C7, at the XRD of `Widget` without claim names. -/
theorem RegisterPackage_no_claim_one_entry_witness :
    (SchemaStore.RegisterPackage (specDeps keepVersions) NewSchemaStore
      { Entries := [xrdEntry widgetXRDNoClaim] }).2 = none ∧
    (SchemaStore.RegisterPackage (specDeps keepVersions) NewSchemaStore
      { Entries := [xrdEntry widgetXRDNoClaim] }).1.crds.keys.card = 1 ∧
    (SchemaStore.RegisterPackage (specDeps keepVersions) NewSchemaStore
      { Entries := [xrdEntry widgetXRDNoClaim] }).1.GetCRDSchema
      { Group := widgetV1.Spec.Group, Kind := widgetV1.Spec.Names.Kind } =
        some widgetKeptEntry ∧
    ∀ claimDerivation : CompositeResourceDefinition → Except String V1CustomResourceDefinition,
      SchemaStore.RegisterPackage
        { Convert := (specDeps keepVersions).Convert,
          ForCompositeResource := (specDeps keepVersions).ForCompositeResource,
          ForCompositeResourceClaim := claimDerivation }
        NewSchemaStore { Entries := [xrdEntry widgetXRDNoClaim] } =
      SchemaStore.RegisterPackage (specDeps keepVersions) NewSchemaStore
        { Entries := [xrdEntry widgetXRDNoClaim] } :=
  RegisterPackage_no_claim_one_entry (specDeps keepVersions) (xrdEntry widgetXRDNoClaim)
    widgetXRDNoClaim widgetV1 widgetKeptEntry rfl rfl rfl rfl rfl rfl

/-- C8 as stated fails: when the composite derivation and conversion succeed
and the claim derivation then fails, `RegisterPackage` returns the failure,
and the store, empty before, holds the composite entry derived from the XRD. -/
theorem RegisterPackage_claim_failure_keeps_composite :
    claimRejectingDeps.ForCompositeResourceClaim widgetXRD = .error "invalid claim names" ∧
    (SchemaStore.RegisterPackage claimRejectingDeps NewSchemaStore
      { Entries := [xrdEntry widgetXRD] }).2 =
        some "failed to build claim CRD: invalid claim names" ∧
    NewSchemaStore.GetCRDSchema { Group := "example.org", Kind := "Widget" } = none ∧
    (SchemaStore.RegisterPackage claimRejectingDeps NewSchemaStore
      { Entries := [xrdEntry widgetXRD] }).1.GetCRDSchema
        { Group := "example.org", Kind := "Widget" } = some widgetKeptEntry ∧
    (SchemaStore.RegisterPackage claimRejectingDeps NewSchemaStore
      { Entries := [xrdEntry widgetXRD] }).1 ≠ NewSchemaStore := by
  refine ⟨rfl, by decide, rfl, rfl, ?_⟩
  intro h
  have hcard := congrArg (fun s : SchemaStore => s.crds.keys.card) h
  revert hcard
  decide

/-- C8, amended: `RegisterPackage` returns the failure of a derivation to its
caller, wrapped, and processes no later entry. When the composite derivation
fails, the store is as it was before the XRD was processed. When the
composite derivation and conversion succeed and the claim derivation fails,
the store is the one before the XRD was processed with the composite entry
registered, and nothing else: no claim entry was added. -/
theorem RegisterPackage_derivation_failure (d : Deps) (s : SchemaStore) (e : PackageEntry)
    (rest : List PackageEntry) (xrd : CompositeResourceDefinition)
    (hcrd : e.IsCRD = false) (hxrd : e.IsXRD = true) (has : e.AsXRD = .ok xrd) :
    (∀ err, d.ForCompositeResource xrd = .error err →
      SchemaStore.RegisterPackage d s { Entries := e :: rest } =
        (s, some (Wrap err errBuildCompositeCRD))) ∧
    (∀ comp c cn err, d.ForCompositeResource xrd = .ok comp → d.Convert comp = .ok c →
      xrd.Spec.ClaimNames = some cn → d.ForCompositeResourceClaim xrd = .error err →
      SchemaStore.RegisterPackage d s { Entries := e :: rest } =
        ((SchemaStore.registerCRD d s comp).1, some (Wrap err errBuildClaimCRD)) ∧
      (SchemaStore.registerCRD d s comp).1 =
        { crds := s.crds.insert { Group := comp.Spec.Group, Kind := comp.Spec.Names.Kind } c }) := by
  constructor
  · intro err hcomp
    exact registerEntries_stop d s s e rest _
      (registerEntry_composite_fails d s e xrd err hcrd hxrd has hcomp)
  · intro comp c cn err hcomp h1 hcn hclaim
    rw [registerCRD_ok d s comp c h1]
    exact ⟨registerEntries_stop d s _ e rest _
      (registerEntry_claim_fails d s e xrd comp c cn err hcrd hxrd has hcn hcomp h1 hclaim), rfl⟩

/-- C8 amended, at an XRD without a usable version schema (the composite
derivation fails, the store stays empty), and at the XRD of `Widget` with a
claim derivation that fails (the store holds the composite entry). -/
theorem RegisterPackage_derivation_failure_witness :
    SchemaStore.RegisterPackage (specDeps keepVersions) NewSchemaStore
        { Entries := [xrdEntry schemalessXRD, xrdEntry widgetXRD] } =
      (NewSchemaStore, some (Wrap "SchemaDerivationError" errBuildCompositeCRD)) ∧
    (SchemaStore.RegisterPackage claimRejectingDeps NewSchemaStore
        { Entries := [xrdEntry widgetXRD, xrdEntry widgetXRDNoClaim] } =
      ((SchemaStore.registerCRD claimRejectingDeps NewSchemaStore widgetV1).1,
        some (Wrap "invalid claim names" errBuildClaimCRD)) ∧
      (SchemaStore.registerCRD claimRejectingDeps NewSchemaStore widgetV1).1 =
        { crds := NewSchemaStore.crds.insert
            { Group := widgetV1.Spec.Group, Kind := widgetV1.Spec.Names.Kind } widgetKeptEntry }) :=
  ⟨(RegisterPackage_derivation_failure (specDeps keepVersions) NewSchemaStore
      (xrdEntry schemalessXRD) [xrdEntry widgetXRD] schemalessXRD rfl rfl rfl).1
      "SchemaDerivationError" rfl,
    (RegisterPackage_derivation_failure claimRejectingDeps NewSchemaStore
      (xrdEntry widgetXRD) [xrdEntry widgetXRDNoClaim] widgetXRD rfl rfl rfl).2
      widgetV1 widgetKeptEntry { Kind := "WidgetClaim" } "invalid claim names" rfl rfl rfl rfl⟩

/-! ## The selection of the validation schema -/

/-- The selection `GetCRDSchemaValidation` makes: nothing when group and kind
have no entry; the unversioned schema when the entry has one, whatever the
version asked for; otherwise the schema of the first version whose label is
the version asked for; nothing when no label matches. The schema selected goes
through `addMetaDataToSchema`, whose outcome, the augmented schema or the
fault, is that of the call. -/
theorem GetCRDSchemaValidation_selection (s : SchemaStore) (gvk : GroupVersionKind) :
    s.GetCRDSchemaValidation gvk =
      match s.GetCRDSchema gvk.GroupKind with
      | none => .ok none
      | some crd =>
        match crd.Spec.Validation with
        | some validation => (addMetaDataToSchema (some validation)).map some
        | none =>
          match crd.Spec.Versions.find? (fun v => decide (v.Name = gvk.Version)) with
          | some v => (addMetaDataToSchema v.Schema).map some
          | none => .ok none := by
  unfold SchemaStore.GetCRDSchemaValidation
  cases s.GetCRDSchema gvk.GroupKind with
  | none => rfl
  | some crd =>
    cases hval : crd.Spec.Validation with
    | some validation =>
      simp only [hval]
      cases addMetaDataToSchema (some validation) <;> rfl
    | none =>
      simp only [hval]
      exact scanVersions_find gvk.Version crd.Spec.Versions

/-- C9, evaluated: the entry of `Open` has a single unversioned schema, the
root schema of which has no properties map, and `GetCRDSchemaValidation` does
not return that schema augmented: for the version `v1` as for the version
`v2` the call faults with a write to a nil map. Likewise where the conversion
kept the schema with its version: the entry has no unversioned schema, the
first version labelled `v1` has that schema, and the call for `v1` faults
instead of returning it augmented; for `v2`, which no label matches, it
returns nothing. -/
theorem GetCRDSchemaValidation_selected_schema_faults :
    (openStore.GetCRDSchema { Group := "example.org", Kind := "Open" }).bind
        (fun crd => crd.Spec.Validation) = some openSchema ∧
    openStore.GetCRDSchemaValidation { Group := "example.org", Version := "v1", Kind := "Open" } =
      .error Panic.nilMapWrite ∧
    openStore.GetCRDSchemaValidation { Group := "example.org", Version := "v2", Kind := "Open" } =
      .error Panic.nilMapWrite ∧
    (openVersionsStore.GetCRDSchema { Group := "example.org", Kind := "Open" }).bind
        (fun crd => crd.Spec.Validation) = none ∧
    ((openVersionsStore.GetCRDSchema { Group := "example.org", Kind := "Open" }).bind
        (fun crd => crd.Spec.Versions.find? (fun v => decide (v.Name = "v1")))).bind
        (fun v => v.Schema) = some openSchema ∧
    openVersionsStore.GetCRDSchemaValidation
        { Group := "example.org", Version := "v1", Kind := "Open" } =
      .error Panic.nilMapWrite ∧
    openVersionsStore.GetCRDSchemaValidation
        { Group := "example.org", Version := "v2", Kind := "Open" } = .ok none :=
  ⟨rfl, rfl, rfl, rfl, rfl, rfl, rfl⟩

/-! ## The composition check -/

/-- C10: for a composition entry that parses, whose `apiVersion` is well
formed and whose group and kind have no entry, the calls
`checkCompositionWithSchemas` makes are one `ReportIssue` and nothing else (no
validator is constructed, `Validate` is not called, nothing faults). The
issue's entry is the composition entry, its path is built from `spec` and
`compositeTypeRef`, and its description is the message `errNoCRDForGVK`
formatted with the text `group/version, Kind=kind` of the reference. -/
theorem checkCompositionWithSchemas_unregistered (d : RuleDeps) (ctx : LinterContext)
    (manifest : PackageEntry) (comp : Composition) (gv : GroupVersion)
    (hcomp : manifest.IsComposition = true) (has : manifest.AsComposition = .ok comp)
    (hgv : ParseGroupVersion comp.CompositeTypeRef.APIVersion = .ok gv)
    (habsent : ctx.GetCRDSchema { Group := gv.Group, Kind := comp.CompositeTypeRef.Kind } = none) :
    checkCompositionWithSchemas d ctx manifest =
      ([Call.ReportIssue
        { RuleName := "", Entry := some manifest,
          Path := NewJSONPath [PathArg.text "spec", PathArg.text "compositeTypeRef"],
          PathValue := "",
          Description := d.Sprintf d.errNoCRDForGVK
            (gv.Group ++ "/" ++ gv.Version ++ ", Kind=" ++ comp.CompositeTypeRef.Kind) }],
        none) ∧
    (reportedIssues (checkCompositionWithSchemas d ctx manifest).1).length = 1 := by
  have h : checkCompositionWithSchemas d ctx manifest =
      ([Call.ReportIssue
        { RuleName := "", Entry := some manifest,
          Path := NewJSONPath [PathArg.text "spec", PathArg.text "compositeTypeRef"],
          PathValue := "",
          Description := d.Sprintf d.errNoCRDForGVK
            (gv.Group ++ "/" ++ gv.Version ++ ", Kind=" ++ comp.CompositeTypeRef.Kind) }],
        none) := by
    simp only [checkCompositionWithSchemas, hcomp, has, hgv, GroupVersion.WithKind,
      GroupVersionKind.GroupKind, habsent, GroupVersionKind.text, Bool.not_true,
      Bool.false_eq_true, if_false]
  rw [h]
  exact ⟨rfl, rfl⟩

/-- C10, at a composition that refers to `Gadget` of `example.org/v1` while
the store holds `Widget` only. -/
theorem checkCompositionWithSchemas_unregistered_witness :
    checkCompositionWithSchemas sampleRuleDeps widgetStore.LinterContext
        (compositionEntry gadgetComposition) =
      ([Call.ReportIssue
        { RuleName := "", Entry := some (compositionEntry gadgetComposition),
          Path := NewJSONPath [PathArg.text "spec", PathArg.text "compositeTypeRef"],
          PathValue := "",
          Description := sampleRuleDeps.Sprintf sampleRuleDeps.errNoCRDForGVK
            ("example.org" ++ "/" ++ "v1" ++ ", Kind=" ++ "Gadget") }],
        none) ∧
    (reportedIssues (checkCompositionWithSchemas sampleRuleDeps widgetStore.LinterContext
      (compositionEntry gadgetComposition)).1).length = 1 :=
  checkCompositionWithSchemas_unregistered sampleRuleDeps widgetStore.LinterContext
    (compositionEntry gadgetComposition) gadgetComposition
    { Group := "example.org", Version := "v1" } rfl rfl rfl rfl

/-! ## The issues of a validated composition -/

theorem reportedIssues_append (xs ys : List Call) :
    reportedIssues (xs ++ ys) = reportedIssues xs ++ reportedIssues ys := by
  induction xs with
  | nil => rfl
  | cons c rest ih => cases c <;> simp [reportedIssues, ih]

theorem reportedIssues_println (warns : List String) :
    reportedIssues (warns.map Call.Println) = [] := by
  induction warns with
  | nil => rfl
  | cons w rest ih => simpa [reportedIssues] using ih

/-- The loop over field errors that are all present reports one issue each and does not fault. -/
theorem reportFieldErrors_present (d : RuleDeps) (manifest : PackageEntry)
    (fieldErrors : List FieldError) :
    reportFieldErrors d manifest (fieldErrors.map some) =
      (fieldErrors.map (fun e => Call.ReportIssue
        { RuleName := "CompositionSchemaAwareValidation",
          Path := toJSONPath d (some e),
          Entry := some manifest,
          PathValue := "",
          Description := e.Error }), none) := by
  induction fieldErrors with
  | nil => rfl
  | cons e rest ih => simp [reportFieldErrors, ih]

theorem reportedIssues_reports (issues : List Issue) :
    reportedIssues (issues.map Call.ReportIssue) = issues := by
  induction issues with
  | nil => rfl
  | cons i rest ih => simp [reportedIssues, ih]

/-- The calls of the check for an entry that reaches validation. -/
theorem checkCompositionWithSchemas_validated (d : RuleDeps) (ctx : LinterContext)
    (manifest : PackageEntry) (comp : Composition) (gv : GroupVersion)
    (crd : CustomResourceDefinition) (v : Validator)
    (hcomp : manifest.IsComposition = true) (has : manifest.AsComposition = .ok comp)
    (hgv : ParseGroupVersion comp.CompositeTypeRef.APIVersion = .ok gv)
    (hcrd : ctx.GetCRDSchema { Group := gv.Group, Kind := comp.CompositeTypeRef.Kind } = some crd)
    (hnew : d.NewValidator { LinterContext := ctx } = .ok v) :
    checkCompositionWithSchemas d ctx manifest =
      (Call.NewValidator { LinterContext := ctx } :: Call.Validate comp ::
        ((v.Validate comp).1.map Call.Println ++
          (reportFieldErrors d manifest (v.Validate comp).2).1),
        (reportFieldErrors d manifest (v.Validate comp).2).2) := by
  simp only [checkCompositionWithSchemas, hcomp, has, hgv, GroupVersion.WithKind,
    GroupVersionKind.GroupKind, hcrd, hnew, Bool.not_true, Bool.false_eq_true, if_false]

/-- C11: for a composition entry that reaches validation (it parses, its
`apiVersion` is well formed, its group and kind have an entry, the validator
is constructed), when `Validate` returns the warnings `warns` and the field
errors `fieldErrors`, the issues reported are, in the order of `fieldErrors`,
one per field error: rule name `CompositionSchemaAwareValidation`, the entry,
the path `toJSONPath` gives and the error's message as description. The
warnings are printed and give no issue; nothing faults; with no field error
no issue is reported. -/
theorem checkCompositionWithSchemas_issue_per_error (d : RuleDeps) (ctx : LinterContext)
    (manifest : PackageEntry) (comp : Composition) (gv : GroupVersion)
    (crd : CustomResourceDefinition) (v : Validator) (warns : List String)
    (fieldErrors : List FieldError)
    (hcomp : manifest.IsComposition = true) (has : manifest.AsComposition = .ok comp)
    (hgv : ParseGroupVersion comp.CompositeTypeRef.APIVersion = .ok gv)
    (hcrd : ctx.GetCRDSchema { Group := gv.Group, Kind := comp.CompositeTypeRef.Kind } = some crd)
    (hnew : d.NewValidator { LinterContext := ctx } = .ok v)
    (hval : v.Validate comp = (warns, fieldErrors.map some)) :
    reportedIssues (checkCompositionWithSchemas d ctx manifest).1 =
      fieldErrors.map (fun e =>
        { RuleName := "CompositionSchemaAwareValidation",
          Path := toJSONPath d (some e),
          Entry := some manifest,
          PathValue := "",
          Description := e.Error }) ∧
    (checkCompositionWithSchemas d ctx manifest).2 = none ∧
    (fieldErrors = [] → reportedIssues (checkCompositionWithSchemas d ctx manifest).1 = []) := by
  have hissues : reportedIssues (checkCompositionWithSchemas d ctx manifest).1 =
      fieldErrors.map (fun e =>
        { RuleName := "CompositionSchemaAwareValidation",
          Path := toJSONPath d (some e),
          Entry := some manifest,
          PathValue := "",
          Description := e.Error }) := by
    rw [checkCompositionWithSchemas_validated d ctx manifest comp gv crd v hcomp has hgv hcrd hnew,
      hval]
    simp only [reportFieldErrors_present, reportedIssues, reportedIssues_append,
      reportedIssues_println, List.nil_append]
    exact (congrArg reportedIssues (List.map_map Call.ReportIssue _ fieldErrors).symm).trans
      (reportedIssues_reports _)
  refine ⟨hissues, ?_, ?_⟩
  · rw [checkCompositionWithSchemas_validated d ctx manifest comp gv crd v hcomp has hgv hcrd hnew,
      hval]
    simp only [reportFieldErrors_present]
  · intro hnil
    rw [hissues, hnil]
    rfl

/-- C11, at a composition of the registered `Widget` whose validation returns
one warning and two field errors: two issues, in the order of the errors. -/
theorem checkCompositionWithSchemas_issue_per_error_witness :
    reportedIssues (checkCompositionWithSchemas findingRuleDeps widgetStore.LinterContext
        (compositionEntry widgetComposition)).1 =
      [sizeError, pathlessError].map (fun e =>
        { RuleName := "CompositionSchemaAwareValidation",
          Path := toJSONPath findingRuleDeps (some e),
          Entry := some (compositionEntry widgetComposition),
          PathValue := "",
          Description := e.Error }) ∧
    (checkCompositionWithSchemas findingRuleDeps widgetStore.LinterContext
      (compositionEntry widgetComposition)).2 = none ∧
    ([sizeError, pathlessError] = [] →
      reportedIssues (checkCompositionWithSchemas findingRuleDeps widgetStore.LinterContext
        (compositionEntry widgetComposition)).1 = []) :=
  checkCompositionWithSchemas_issue_per_error findingRuleDeps widgetStore.LinterContext
    (compositionEntry widgetComposition) widgetComposition
    { Group := "example.org", Version := "v1" } widgetEntry
    { Validate := fun _ => (["spec.mode is deprecated"], [some sizeError, some pathlessError]) }
    ["spec.mode is deprecated"] [sizeError, pathlessError] rfl rfl rfl rfl rfl rfl

/-! ## The path of a field error -/

/-- Whatever the parser of field paths returns, the path of an error with a
field path has one element: the whole value the parser returned. -/
theorem toJSONPath_one_element (d : RuleDeps) (e : FieldError) (h : e.Field ≠ "") :
    toJSONPath d (some e) = [PathArg.segments (d.Parse e.Field).1] := by
  simp [toJSONPath, h, NewJSONPath]

/-- C12, evaluated at the field path `spec.size`: splitting it gives the two
segments `spec` and `size`, and `toJSONPath` hands them to `NewJSONPath` as one
argument, so the path it returns has one element, the pair of segments as a
whole; an absent error and an empty field path give the empty path. -/
theorem toJSONPath_single_argument :
    (sampleRuleDeps.Parse sizeError.Field).1 = [Segment.field "spec", Segment.field "size"] ∧
    toJSONPath sampleRuleDeps (some sizeError) =
      NewJSONPath [PathArg.segments [Segment.field "spec", Segment.field "size"]] ∧
    (toJSONPath sampleRuleDeps (some sizeError)).length = 1 ∧
    toJSONPath sampleRuleDeps none = [] ∧
    toJSONPath sampleRuleDeps (some pathlessError) = [] := by
  refine ⟨by decide, by decide, by decide, rfl, rfl⟩

/-! ## The validator's adapter -/

/-- C13 as stated fails: for the registered `Widget`, whose author declared
`spec` only, the entry `crdGetter.Get` returns, and the one `crdGetter.GetAll`
holds for it, is the stored entry, in whose schema `metadata` declares none of
name, namespace, labels, annotations and uid. -/
theorem crdGetter_returns_unaugmented :
    crdGetter.Get { LinterContext := widgetStore.LinterContext }
      { Group := "example.org", Kind := "Widget" } = .ok widgetEntry ∧
    (crdGetter.GetAll { LinterContext := widgetStore.LinterContext }).lookup
      { Group := "example.org", Kind := "Widget" } = some widgetEntry ∧
    widgetEntry.Spec.Validation = some widgetSchema ∧
    ∀ name ∈ ["name", "namespace", "labels", "annotations", "uid"],
      (widgetSchema.OpenAPIV3Schema.bind (fun root => metaField root name)) = none := by
  refine ⟨rfl, rfl, rfl, ?_⟩
  intro name hname
  simp only [List.mem_cons, List.mem_singleton, List.not_mem_nil, or_false] at hname
  rcases hname with rfl | rfl | rfl | rfl | rfl <;> rfl

/-- C13, amended: for every identity registered in the store, the entry the
adapter's `Get` returns, and the entry its `GetAll` holds for that identity,
is the stored entry as it is, schemas included: a `metadata` field is present
in it exactly where the stored schema declares it, none is added. -/
theorem crdGetter_returns_stored (s : SchemaStore) (gk : GroupKind)
    (e : CustomResourceDefinition) (h : s.crds.lookup gk = some e) :
    crdGetter.Get { LinterContext := s.LinterContext } gk = .ok e ∧
    (crdGetter.GetAll { LinterContext := s.LinterContext }).lookup gk = some e := by
  constructor
  · simp only [crdGetter.Get, SchemaStore.LinterContext, GetCRDSchema_eq_lookup, h]
  · exact h

/-- C13 amended, at the store that holds `Widget`. -/
theorem crdGetter_returns_stored_witness :
    crdGetter.Get { LinterContext := widgetStore.LinterContext }
      { Group := "example.org", Kind := "Widget" } = .ok widgetEntry ∧
    (crdGetter.GetAll { LinterContext := widgetStore.LinterContext }).lookup
      { Group := "example.org", Kind := "Widget" } = some widgetEntry :=
  crdGetter_returns_stored widgetStore { Group := "example.org", Kind := "Widget" }
    widgetEntry rfl

/-- C14: `crdGetter.Get` returns an error, and no definition, exactly when
`GetCRDSchema` returns nil for the group and kind; the error says that the
CRD was not found; otherwise it returns, without error, the very entry
`GetCRDSchema` returned. Over a store, it fails exactly for the identities
that are not registered. -/
theorem crdGetter_Get_fails_iff_absent (ctx : LinterContext) (s : SchemaStore) (gk : GroupKind) :
    ((∃ err, crdGetter.Get { LinterContext := ctx } gk = .error err) ↔
      ctx.GetCRDSchema gk = none) ∧
    (ctx.GetCRDSchema gk = none →
      crdGetter.Get { LinterContext := ctx } gk = .error ("CRD " ++ gk.text ++ " not found")) ∧
    (∀ crd, ctx.GetCRDSchema gk = some crd →
      crdGetter.Get { LinterContext := ctx } gk = .ok crd) ∧
    ((∃ err, crdGetter.Get { LinterContext := s.LinterContext } gk = .error err) ↔ gk ∉ s.crds) := by
  have hgen : ∀ c : LinterContext,
      ((∃ err, crdGetter.Get { LinterContext := c } gk = .error err) ↔
        c.GetCRDSchema gk = none) := by
    intro c
    unfold crdGetter.Get
    cases hc : c.GetCRDSchema gk with
    | none => simp
    | some crd => simp
  refine ⟨hgen ctx, ?_, ?_, ?_⟩
  · intro h
    simp only [crdGetter.Get, h]
  · intro crd h
    simp only [crdGetter.Get, h]
  · rw [hgen s.LinterContext]
    show s.GetCRDSchema gk = none ↔ gk ∉ s.crds
    rw [GetCRDSchema_eq_lookup]
    exact Finmap.lookup_eq_none

/-- C14, at the store that holds `Widget`: `Gadget` is not found, `Widget` is returned. -/
theorem crdGetter_Get_fails_iff_absent_witness :
    crdGetter.Get { LinterContext := widgetStore.LinterContext }
      { Group := "example.org", Kind := "Gadget" } = .error "CRD Gadget.example.org not found" ∧
    crdGetter.Get { LinterContext := widgetStore.LinterContext }
      { Group := "example.org", Kind := "Widget" } = .ok widgetEntry :=
  ⟨(crdGetter_Get_fails_iff_absent widgetStore.LinterContext widgetStore
      { Group := "example.org", Kind := "Gadget" }).2.1 rfl,
    (crdGetter_Get_fails_iff_absent widgetStore.LinterContext widgetStore
      { Group := "example.org", Kind := "Widget" }).2.2.1 widgetEntry rfl⟩

/-! ## Malformed input -/

/-- C15: malformed input is surfaced as a single issue. For a
composition-shaped entry (a) that fails to parse, or (b) whose composite type
reference has a malformed `apiVersion`, or (c) for which the construction of
the validator fails, the check reports exactly one issue, with an empty rule
name, the entry as its entry, and the wrapped error as its description; that
report is its last call, `Validate` is not called, and nothing faults. In
(a) and (b) the report is the only call; in (c) it follows the attempt to
construct the validator. -/
theorem checkCompositionWithSchemas_malformed (d : RuleDeps) (ctx : LinterContext)
    (manifest : PackageEntry) (hcomp : manifest.IsComposition = true) :
    (∀ err, manifest.AsComposition = .error err →
      checkCompositionWithSchemas d ctx manifest =
        ([Call.ReportIssue
          { RuleName := "", Entry := some manifest, Path := [], PathValue := "",
            Description := Wrap err (d.Sprintf d.errConvertTo "Composition") }], none)) ∧
    (∀ comp err, manifest.AsComposition = .ok comp →
      ParseGroupVersion comp.CompositeTypeRef.APIVersion = .error err →
      checkCompositionWithSchemas d ctx manifest =
        ([Call.ReportIssue
          { RuleName := "", Entry := some manifest, Path := [], PathValue := "",
            Description := Wrap err d.errParseGroupVersion }], none)) ∧
    (∀ comp gv crd err, manifest.AsComposition = .ok comp →
      ParseGroupVersion comp.CompositeTypeRef.APIVersion = .ok gv →
      ctx.GetCRDSchema { Group := gv.Group, Kind := comp.CompositeTypeRef.Kind } = some crd →
      d.NewValidator { LinterContext := ctx } = .error err →
      checkCompositionWithSchemas d ctx manifest =
        ([Call.NewValidator { LinterContext := ctx },
          Call.ReportIssue
            { RuleName := "", Entry := some manifest, Path := [], PathValue := "",
              Description := Wrap err "creating schema aware validator" }], none) ∧
      (reportedIssues (checkCompositionWithSchemas d ctx manifest).1).length = 1 ∧
      validateCalls (checkCompositionWithSchemas d ctx manifest).1 = []) := by
  refine ⟨?_, ?_, ?_⟩
  · intro err has
    simp only [checkCompositionWithSchemas, hcomp, has, Bool.not_true, Bool.false_eq_true,
      if_false]
  · intro comp err has hgv
    simp only [checkCompositionWithSchemas, hcomp, has, hgv, Bool.not_true, Bool.false_eq_true,
      if_false]
  · intro comp gv crd err has hgv hcrd hnew
    have h : checkCompositionWithSchemas d ctx manifest =
        ([Call.NewValidator { LinterContext := ctx },
          Call.ReportIssue
            { RuleName := "", Entry := some manifest, Path := [], PathValue := "",
              Description := Wrap err "creating schema aware validator" }], none) := by
      simp only [checkCompositionWithSchemas, hcomp, has, hgv, GroupVersion.WithKind,
        GroupVersionKind.GroupKind, hcrd, hnew, Bool.not_true, Bool.false_eq_true, if_false]
    rw [h]
    exact ⟨rfl, rfl, rfl⟩

/-- C15, at an entry that does not parse, at a composition whose `apiVersion`
is `example.org/v1/beta`, and at a composition of the registered `Widget` when
the validator cannot be constructed. -/
theorem checkCompositionWithSchemas_malformed_witness :
    checkCompositionWithSchemas sampleRuleDeps widgetStore.LinterContext unparsableEntry =
      ([Call.ReportIssue
        { RuleName := "", Entry := some unparsableEntry, Path := [], PathValue := "",
          Description := Wrap "yaml: line 3: mapping values"
            (sampleRuleDeps.Sprintf sampleRuleDeps.errConvertTo "Composition") }], none) ∧
    checkCompositionWithSchemas sampleRuleDeps widgetStore.LinterContext
        (compositionEntry malformedComposition) =
      ([Call.ReportIssue
        { RuleName := "", Entry := some (compositionEntry malformedComposition), Path := [],
          PathValue := "",
          Description := Wrap "unexpected GroupVersion string: example.org/v1/beta"
            sampleRuleDeps.errParseGroupVersion }], none) ∧
    (checkCompositionWithSchemas failingValidatorDeps widgetStore.LinterContext
        (compositionEntry widgetComposition) =
      ([Call.NewValidator { LinterContext := widgetStore.LinterContext },
        Call.ReportIssue
          { RuleName := "", Entry := some (compositionEntry widgetComposition), Path := [],
            PathValue := "",
            Description := Wrap "no CRD getter" "creating schema aware validator" }], none) ∧
      (reportedIssues (checkCompositionWithSchemas failingValidatorDeps widgetStore.LinterContext
        (compositionEntry widgetComposition)).1).length = 1 ∧
      validateCalls (checkCompositionWithSchemas failingValidatorDeps widgetStore.LinterContext
        (compositionEntry widgetComposition)).1 = []) :=
  ⟨(checkCompositionWithSchemas_malformed sampleRuleDeps widgetStore.LinterContext
      unparsableEntry rfl).1 _ rfl,
    (checkCompositionWithSchemas_malformed sampleRuleDeps widgetStore.LinterContext
      (compositionEntry malformedComposition) rfl).2.1 malformedComposition _ rfl rfl,
    (checkCompositionWithSchemas_malformed failingValidatorDeps widgetStore.LinterContext
      (compositionEntry widgetComposition) rfl).2.2 widgetComposition
      { Group := "example.org", Version := "v1" } widgetEntry _ rfl rfl rfl rfl⟩

/-! ## The snapshot -/

/-- What the loop of `GetAll` leaves at a key, when no two of the entries it
ranges over share a key: the entry's value, or what `out` held before. -/
theorem lookup_copyEntries (l : List (Sigma (fun _ : GroupKind => CustomResourceDefinition))) :
    ∀ (out : Finmap (fun _ : GroupKind => CustomResourceDefinition)) (k : GroupKind),
      l.NodupKeys →
      (copyEntries out l).lookup k =
        match l.dlookup k with
        | some v => some v
        | none => out.lookup k := by
  induction l with
  | nil => intro out k _; rfl
  | cons e rest ih =>
    intro out k hnd
    obtain ⟨hnot, hrest⟩ := List.nodupKeys_cons.1 hnd
    rw [copyEntries, ih _ k hrest]
    by_cases hk : k = e.1
    · subst hk
      rw [List.dlookup_eq_none.2 hnot, List.dlookup_cons_eq]
      exact Finmap.lookup_insert _
    · rw [List.dlookup_cons_ne _ _ hk]
      cases rest.dlookup k with
      | some v => rfl
      | none => exact Finmap.lookup_insert_of_ne _ hk

/-- The loop of `GetAll`, in whatever order it ranges over the map, builds a map equal to `crds`. -/
theorem copyEntries_eq (m : Finmap (fun _ : GroupKind => CustomResourceDefinition))
    (l : List (Sigma (fun _ : GroupKind => CustomResourceDefinition)))
    (hl : (l : Multiset (Sigma (fun _ : GroupKind => CustomResourceDefinition))) = m.entries) :
    copyEntries ∅ l = m := by
  have hnd : l.NodupKeys := by
    have := m.nodupKeys
    rw [← hl] at this
    exact Multiset.coe_nodupKeys.1 this
  have hm : m = AList.toFinmap ⟨l, hnd⟩ := Finmap.ext (by rw [← hl]; rfl)
  apply Finmap.ext_lookup
  intro k
  rw [lookup_copyEntries l ∅ k hnd, hm, Finmap.lookup_toFinmap]
  show _ = l.dlookup k
  cases l.dlookup k <;> simp

/-- C16: the snapshot is a complete copy of the registry. The loop of
`GetAll`, in whatever order it ranges over the entries of the store, builds
the map that `GetAll` returns; its keys are exactly the registered group and
kind pairs; its value at each key is the entry `GetCRDSchema` returns for
that key; and the call leaves the store as it was. -/
theorem GetAll_snapshot (s : SchemaStore) :
    (∀ entries : List (Sigma (fun _ : GroupKind => CustomResourceDefinition)),
      (entries : Multiset (Sigma (fun _ : GroupKind => CustomResourceDefinition))) =
        s.crds.entries →
      copyEntries ∅ entries = s.GetAll) ∧
    s.GetAll.keys = s.crds.keys ∧
    (∀ gk, gk ∈ s.GetAll ↔ (s.GetCRDSchema gk).isSome = true) ∧
    (∀ gk, s.GetAll.lookup gk = s.GetCRDSchema gk) ∧
    (∀ held, (ClientStep.GetAll.run { store := s, held := held }).store = s) := by
  refine ⟨fun entries h => copyEntries_eq s.crds entries h, rfl, ?_, ?_, fun _ => rfl⟩
  · intro gk
    rw [GetCRDSchema_eq_lookup]
    exact Finmap.lookup_isSome.symm
  · intro gk
    rw [GetCRDSchema_eq_lookup]
    rfl

/-- C16, at the store that holds `Widget`: the loop over its one entry builds
the snapshot, which holds `Widget` and nothing under `Gadget`. -/
theorem GetAll_snapshot_witness :
    copyEntries ∅
        [(⟨{ Group := "example.org", Kind := "Widget" }, widgetEntry⟩ :
          Sigma (fun _ : GroupKind => CustomResourceDefinition))] = widgetStore.GetAll ∧
    widgetStore.GetAll.lookup { Group := "example.org", Kind := "Widget" } = some widgetEntry ∧
    widgetStore.GetAll.lookup { Group := "example.org", Kind := "Gadget" } = none :=
  ⟨(GetAll_snapshot widgetStore).1 _ rfl, rfl, rfl⟩

/-! ## Faults of the validation lookup -/

/-- C18, evaluated: after a package of three definitions is registered
without error, `GetCRDSchemaValidation` faults for each of them: with a write
to a nil map for the root schema without properties map (the conversion
having moved the lone schema to the unversioned validation, or having kept it
with its version), and with a nil dereference for the validation without root
schema and for the matching version without schema. -/
theorem GetCRDSchemaValidation_faults :
    (SchemaStore.RegisterPackage (specDeps hoistSingleVersion) NewSchemaStore faultyPackage).2 =
      none ∧
    (SchemaStore.RegisterPackage (specDeps hoistSingleVersion) NewSchemaStore
      faultyPackage).1.GetCRDSchemaValidation
        { Group := "example.org", Version := "v1", Kind := "Open" } =
      .error Panic.nilMapWrite ∧
    (SchemaStore.RegisterPackage (specDeps keepVersions) NewSchemaStore
      faultyPackage).1.GetCRDSchemaValidation
        { Group := "example.org", Version := "v1", Kind := "Open" } =
      .error Panic.nilMapWrite ∧
    (SchemaStore.RegisterPackage (specDeps hoistSingleVersion) NewSchemaStore
      faultyPackage).1.GetCRDSchemaValidation
        { Group := "example.org", Version := "v1", Kind := "Rootless" } =
      .error Panic.nilDereference ∧
    (SchemaStore.RegisterPackage (specDeps hoistSingleVersion) NewSchemaStore
      faultyPackage).1.GetCRDSchemaValidation
        { Group := "example.org", Version := "v1", Kind := "Bare" } =
      .error Panic.nilDereference :=
  ⟨rfl, rfl, rfl, rfl, rfl⟩

/-- The validation lookup completes exactly when the schema it selects, if
any, has a root schema with a properties map. -/
theorem addMetaDataToSchema_completes_iff (crdv : Option CustomResourceValidation) :
    (∃ r, addMetaDataToSchema crdv = .ok r) ↔
      ∃ v root P, crdv = some v ∧ v.OpenAPIV3Schema = some root ∧ root.Properties = some P := by
  constructor
  · rintro ⟨r, hr⟩
    obtain ⟨v, root, P, h1, h2, h3, _⟩ := addMetaDataToSchema_ok crdv r hr
    exact ⟨v, root, P, h1, h2, h3⟩
  · rintro ⟨v, root, P, rfl, h2, h3⟩
    exact ⟨_, addMetaDataToSchema_eq v root P h2 h3⟩

/-! ## The frame of the augmentation and of registration -/

/-- C19: augmentation touches only the `metadata` envelope. Whenever
`addMetaDataToSchema` completes, the root schema it leaves has the root's
description, type, required list and additional properties, and at every
top-level property other than `metadata` what the root had; and when
`metadata` was declared, the `metadata` it leaves has that declaration's
description, type, required list and additional properties, and every nested
property the declaration had, with the same schema. -/
theorem addMetaDataToSchema_frame (crdv : Option CustomResourceValidation)
    (r : CustomResourceValidation) (h : addMetaDataToSchema crdv = .ok r) :
    ∃ v root root' P P', crdv = some v ∧ v.OpenAPIV3Schema = some root ∧
      r.OpenAPIV3Schema = some root' ∧
      root.Properties = some P ∧ root'.Properties = some P' ∧
      (∀ k, k ≠ "metadata" → P' k = P k) ∧
      root' = root.setProperties (some P') ∧
      root'.Description = root.Description ∧ root'.Type_ = root.Type_ ∧
      root'.Required = root.Required ∧
      root'.AdditionalProperties = root.AdditionalProperties ∧
      (∀ md, P "metadata" = some md →
        ∃ md', P' "metadata" = some md' ∧
          md' = md.setProperties md'.Properties ∧
          md'.Description = md.Description ∧ md'.Type_ = md.Type_ ∧
          md'.Required = md.Required ∧
          md'.AdditionalProperties = md.AdditionalProperties ∧
          (∀ q, md.Properties = some q →
            ∃ q', md'.Properties = some q' ∧ ∀ name p, q name = some p → q' name = some p)) := by
  obtain ⟨v, root, P, hv, hroot, hP, hr⟩ := addMetaDataToSchema_ok crdv r h
  subst hr
  refine ⟨v, root, _, P, _, hv, hroot, rfl, hP, JSONSchemaProps.Properties_setProperties _ _,
    ?_, rfl, by simp, by simp, by simp, by simp, ?_⟩
  · intro k hk
    exact GoMap.set_other _ _ _ _ hk
  · intro md hmd
    refine ⟨_, GoMap.set_same _ _ _, ?_, ?_, ?_, ?_, ?_, ?_⟩
    · simp [augmentedMetadata, hmd]
    · simp [augmentedMetadata, hmd]
    · simp [augmentedMetadata, hmd]
    · simp [augmentedMetadata, hmd]
    · simp [augmentedMetadata, hmd]
    · intro q hq
      refine ⟨additionalMetaProps.foldl insertAbsent q, ?_, ?_⟩
      · simp [augmentedMetadata, hmd, hq]
      · intro name p hname
        exact foldl_insertAbsent_keeps _ _ _ _ hname

theorem typedNameSchema_augmented :
    addMetaDataToSchema (some typedNameSchema) = .ok typedNameAugmented :=
  (addMetaDataToSchema_eq typedNameSchema _ _ rfl rfl).trans rfl

/-- C19, at the schema whose `metadata` carries a description, a required
list and the fields `name` and `owner`. -/
theorem addMetaDataToSchema_frame_witness :
    addMetaDataToSchema (some typedNameSchema) = .ok typedNameAugmented ∧
    ∃ v root root' P P', some typedNameSchema = some v ∧ v.OpenAPIV3Schema = some root ∧
      typedNameAugmented.OpenAPIV3Schema = some root' ∧
      root.Properties = some P ∧ root'.Properties = some P' ∧
      (∀ k, k ≠ "metadata" → P' k = P k) ∧
      root' = root.setProperties (some P') ∧
      root'.Description = root.Description ∧ root'.Type_ = root.Type_ ∧
      root'.Required = root.Required ∧
      root'.AdditionalProperties = root.AdditionalProperties ∧
      (∀ md, P "metadata" = some md →
        ∃ md', P' "metadata" = some md' ∧
          md' = md.setProperties md'.Properties ∧
          md'.Description = md.Description ∧ md'.Type_ = md.Type_ ∧
          md'.Required = md.Required ∧
          md'.AdditionalProperties = md.AdditionalProperties ∧
          (∀ q, md.Properties = some q →
            ∃ q', md'.Properties = some q' ∧ ∀ name p, q name = some p → q' name = some p)) :=
  ⟨typedNameSchema_augmented,
    addMetaDataToSchema_frame (some typedNameSchema) typedNameAugmented
      typedNameSchema_augmented⟩

/-- C20: registration affects only its own identity. When `registerCRD`
returns no error, `GetCRDSchema` of every group and kind other than the
definition's returns what it returned before; when it returns an error, the
store is the store as it was, the definition's own group and kind included.
It returns no error exactly when the conversion succeeds. -/
theorem registerCRD_frame (d : Deps) (s : SchemaStore) (crd : V1CustomResourceDefinition) :
    ((SchemaStore.registerCRD d s crd).2 = none →
      ∀ gk : GroupKind, gk ≠ { Group := crd.Spec.Group, Kind := crd.Spec.Names.Kind } →
        (SchemaStore.registerCRD d s crd).1.GetCRDSchema gk = s.GetCRDSchema gk) ∧
    (∀ err, (SchemaStore.registerCRD d s crd).2 = some err →
      (SchemaStore.registerCRD d s crd).1 = s ∧
      ∀ gk : GroupKind, (SchemaStore.registerCRD d s crd).1.GetCRDSchema gk = s.GetCRDSchema gk) ∧
    ((SchemaStore.registerCRD d s crd).2 = none ↔ ∃ e, d.Convert crd = .ok e) := by
  cases hc : d.Convert crd with
  | error err =>
    rw [registerCRD_error d s crd err hc]
    refine ⟨?_, ?_, ?_⟩
    · intro h
      cases h
    · intro _ _
      exact ⟨rfl, fun _ => rfl⟩
    · constructor
      · intro h
        cases h
      · rintro ⟨e, he⟩
        cases he
  | ok e =>
    rw [registerCRD_ok d s crd e hc]
    refine ⟨?_, ?_, ?_⟩
    · intro _ gk hgk
      rw [GetCRDSchema_eq_lookup, GetCRDSchema_eq_lookup]
      exact Finmap.lookup_insert_of_ne _ hgk
    · intro err h
      cases h
    · exact ⟨fun _ => ⟨e, rfl⟩, fun _ => rfl⟩

/-- C20, at the store that holds `Widget`: registering `Gadget` leaves the
lookup of `Widget` as it was, and a registration whose conversion fails
leaves the store as it was. -/
theorem registerCRD_frame_witness :
    (SchemaStore.registerCRD (specDeps keepVersions) widgetStore gadgetV1).1.GetCRDSchema
        { Group := "example.org", Kind := "Widget" } =
      widgetStore.GetCRDSchema { Group := "example.org", Kind := "Widget" } ∧
    ((SchemaStore.registerCRD failingConvertDeps widgetStore widgetV1Typed).1 = widgetStore ∧
      ∀ gk : GroupKind,
        (SchemaStore.registerCRD failingConvertDeps widgetStore widgetV1Typed).1.GetCRDSchema gk =
          widgetStore.GetCRDSchema gk) :=
  ⟨(registerCRD_frame (specDeps keepVersions) widgetStore gadgetV1).1 rfl
      { Group := "example.org", Kind := "Widget" } (by decide),
    (registerCRD_frame failingConvertDeps widgetStore widgetV1Typed).2.1
      "cannot convert default" rfl⟩

end CrossplaneLint
